import Mathlib

/-
Verification of the source-correlation subsystem (`child_by_source.rs`):
given a semantic container and a target file identity, the subsystem builds
a typed map from concrete syntax nodes back to the semantic identifiers that
were derived from them.  The definitions below are a shallow embedding of
`crates/hir-def/src/child_by_source.rs`; database accessors that live in
other crates (`lookup`, `source`, item-scope accessors, `collect_attrs`,
body/block data) are abstracted as fields of a `DefDatabase` record, with
each identifier's resolved location collapsed to a (file identity, resolved
syntax node) pair exactly as the traversal consumes it.
-/

namespace HirDef

/-- File identity: a real file or a macro-expansion virtual file; equality is exact. -/
abbrev HirFileId := Nat

/-- Concrete syntax node, abstracted to an opaque code. -/
abbrev SyntaxNode := Nat

/-- Location of an `AstId` after resolution: the file it lives in together with
the concrete node obtained by `to_node`. -/
structure AstId where
  file_id : HirFileId
  node : SyntaxNode
deriving DecidableEq

/-- Resolved location of an identifier: `loc.id.file_id()` together with the
node produced by `loc.source(db).value`. -/
structure Loc where
  file_id : HirFileId
  node : SyntaxNode
deriving DecidableEq

/-- Mirror of `VariantId` (a record-like or variant field container). -/
inductive VariantId where
  | EnumVariantId (id : Nat)
  | StructId (id : Nat)
  | UnionId (id : Nat)
deriving DecidableEq

/-- Mirror of `FieldId`: parent container paired with the local arena index. -/
structure FieldId where
  parent : VariantId
  local_id : Nat
deriving DecidableEq

/-- Mirror of `MacroId`. -/
inductive MacroId where
  | Macro2Id (id : Nat)
  | MacroRulesId (id : Nat)
  | ProcMacroId (id : Nat)
deriving DecidableEq

/-- Mirror of `AdtId`. -/
inductive AdtId where
  | StructId (id : Nat)
  | UnionId (id : Nat)
  | EnumId (id : Nat)
deriving DecidableEq

/-- Mirror of `ModuleDefId` (the declarations of an item scope). -/
inductive ModuleDefId where
  | FunctionId (id : Nat)
  | ConstId (id : Nat)
  | StaticId (id : Nat)
  | TypeAliasId (id : Nat)
  | TraitId (id : Nat)
  | TraitAliasId (id : Nat)
  | AdtId (adt : AdtId)
  | MacroId (m : MacroId)
  | ModuleId (id : Nat)
  | EnumVariantId (id : Nat)
  | BuiltinType (id : Nat)
deriving DecidableEq

/-- Mirror of `AssocItemId`. -/
inductive AssocItemId where
  | FunctionId (id : Nat)
  | ConstId (id : Nat)
  | TypeAliasId (id : Nat)
deriving DecidableEq

/-- Mirror of `DefWithBodyId` (owners of an executable body). -/
inductive DefWithBodyId where
  | FunctionId (id : Nat)
  | StaticId (id : Nat)
  | ConstId (id : Nat)
  | VariantId (id : Nat)
deriving DecidableEq

/-- Category keys of the dynamic map (`dyn_map::keys`): each fixes a
(syntax-node kind, identifier kind) pair. -/
inductive Key where
  | FUNCTION
  | CONST
  | STATIC
  | TYPE_ALIAS
  | TRAIT
  | TRAIT_ALIAS
  | STRUCT
  | UNION
  | ENUM
  | MACRO2
  | MACRO_RULES
  | PROC_MACRO
  | IMPL
  | EXTERN_CRATE
  | USE
  | ATTR_MACRO_CALL
  | DERIVE_MACRO_CALL
  | TUPLE_FIELD
  | RECORD_FIELD
  | ENUM_VARIANT
deriving DecidableEq

/-- Identifier values stored in the dynamic map.  Each constructor mirrors the
value type of the corresponding key; `DeriveCall` carries the attribute index,
the primary invocation and the helper-derive invocations, exactly the triple
inserted under `DERIVE_MACRO_CALL`. -/
inductive Ident where
  | FunctionId (id : Nat)
  | ConstId (id : Nat)
  | StaticId (id : Nat)
  | TypeAliasId (id : Nat)
  | TraitId (id : Nat)
  | TraitAliasId (id : Nat)
  | StructId (id : Nat)
  | UnionId (id : Nat)
  | EnumId (id : Nat)
  | Macro2Id (id : Nat)
  | MacroRulesId (id : Nat)
  | ProcMacroId (id : Nat)
  | ImplId (id : Nat)
  | ExternCrateId (id : Nat)
  | UseId (id : Nat)
  | MacroCallId (id : Nat)
  | DeriveCall (attr_id : Nat) (call_id : Nat) (helper_calls : List (Option Nat))
  | FieldIdent (f : FieldId)
  | EnumVariantId (id : Nat)
  | ModuleIdent (id : Nat)
  | BuiltinTypeIdent (id : Nat)
deriving DecidableEq

/-- One association stored in the dynamic map: a key, the concrete syntax node
used as the sub-map key, and the identifier value. -/
structure Entry where
  key : Key
  node : SyntaxNode
  id : Ident
deriving DecidableEq

/-- Result Index (`DynMap`): the per-key sub-maps are flattened into a list of
entries; `insert` mirrors hash-map insertion, replacing any previous binding of
the same (key, node) pair. -/
abbrev DynMap := List Entry

/-- Hash-map style insertion into one key's sub-map: the new binding replaces
any earlier binding of the same (key, node) pair. -/
def DynMap.insert (m : DynMap) (k : Key) (n : SyntaxNode) (v : Ident) : DynMap :=
  ⟨k, n, v⟩ :: m.filter fun e => !decide (e.key = k ∧ e.node = n)

/-- Mirror of `TraitData` as consumed here: `attribute_calls()` and the named
associated items. -/
structure TraitData where
  attributeCalls : List (AstId × Nat)
  items : List (Nat × AssocItemId)

/-- Mirror of `ImplData` as consumed here: `attribute_calls()` and the
associated items. -/
structure ImplData where
  attributeCalls : List (AstId × Nat)
  items : List AssocItemId

/-- Mirror of `ItemScope` as consumed here: the accessor results used by
`ItemScope::child_by_source_to`.  Derive records pair the `AstId` of the
annotated item with, per invocation, the stored zero-based attribute index
(`AttrId::ast_index`), the primary call and the helper-derive calls. -/
structure ItemScope where
  declarations : List ModuleDefId
  impls : List Nat
  externCrateDecls : List Nat
  useDecls : List Nat
  unnamedConsts : List Nat
  attrMacroInvocs : List (AstId × Nat)
  legacyMacros : List (Nat × List MacroId)
  deriveMacroInvocs : List (AstId × List (Nat × Nat × List (Option Nat)))
deriving DecidableEq

/-- Field sources of one record-like or variant container
(`HasChildSource::child_source`): the `InFile` wrapper's file identity plus the
ordered arena of per-slot sources, `Either::Left` for a tuple-field form and
`Either::Right` for a record-field form. -/
structure FieldSources where
  file_id : HirFileId
  fields : List (Sum SyntaxNode SyntaxNode)

/-- Database snapshot: the already-resolved inputs every traversal reads.
`lookup` collapses `x.lookup(db)` followed by `loc.source(db).value` into the
recorded (file identity, resolved node) pair; `variantNode` collapses the
`tree[..].ast_id` / `ast_id_map.get` / `to_node(&root)` chain of the sum-type
policy; `bodyBlockScopes` collapses `body.blocks(db)` followed by
`def_map[DefMap::ROOT].scope`; `collectAttrs` is `hir_expand::attrs::collect_attrs`,
returning per slot either an attribute (`Sum.inl`) or a non-attribute entry
such as a doc comment (`Sum.inr`). -/
structure DefDatabase where
  lookup : Ident → Loc
  traitData : Nat → TraitData
  implData : Nat → ImplData
  moduleScope : Nat → ItemScope
  variantChildSource : VariantId → FieldSources
  enumData : Nat → List Nat
  variantNode : Nat → SyntaxNode
  bodyBlockScopes : DefWithBodyId → List ItemScope
  collectAttrs : SyntaxNode → List (Sum SyntaxNode SyntaxNode)

/-- Closed sum of the container kinds implementing `ChildBySource`. -/
inductive Container where
  | trait (id : Nat)
  | impl (id : Nat)
  | module (id : Nat)
  | scope (s : ItemScope)
  | variant (v : VariantId)
  | enum (id : Nat)
  | body (b : DefWithBodyId)

/-- Mirror of `add_assoc_item`: dispatch on the associated-item kind, check the
item's own location file against the request, and insert the resolved source
node under the matching category. -/
def add_assoc_item (db : DefDatabase) (res : DynMap) (file_id : HirFileId)
    (item : AssocItemId) : DynMap :=
  match item with
  | AssocItemId.FunctionId func =>
    let loc := db.lookup (Ident.FunctionId func)
    if loc.file_id = file_id then res.insert Key.FUNCTION loc.node (Ident.FunctionId func)
    else res
  | AssocItemId.ConstId konst =>
    let loc := db.lookup (Ident.ConstId konst)
    if loc.file_id = file_id then res.insert Key.CONST loc.node (Ident.ConstId konst)
    else res
  | AssocItemId.TypeAliasId ty =>
    let loc := db.lookup (Ident.TypeAliasId ty)
    if loc.file_id = file_id then res.insert Key.TYPE_ALIAS loc.node (Ident.TypeAliasId ty)
    else res

/-- Mirror of `ChildBySource for TraitId`: attribute-style invocation sites
filtered to the requested file, then every associated item through
`add_assoc_item`. -/
def TraitId.child_by_source_to (db : DefDatabase) (self : Nat) (res : DynMap)
    (file_id : HirFileId) : DynMap :=
  let data := db.traitData self
  let res := (data.attributeCalls.filter fun p => decide (p.1.file_id = file_id)).foldl
    (fun r p => r.insert Key.ATTR_MACRO_CALL p.1.node (Ident.MacroCallId p.2)) res
  data.items.foldl (fun r p => add_assoc_item db r file_id p.2) res

/-- Mirror of `ChildBySource for ImplId`: same shape as the trait policy, with
unnamed associated items. -/
def ImplId.child_by_source_to (db : DefDatabase) (self : Nat) (res : DynMap)
    (file_id : HirFileId) : DynMap :=
  let data := db.implData self
  let res := (data.attributeCalls.filter fun p => decide (p.1.file_id = file_id)).foldl
    (fun r p => r.insert Key.ATTR_MACRO_CALL p.1.node (Ident.MacroCallId p.2)) res
  data.items.foldl (fun r item => add_assoc_item db r file_id item) res

/-- Mirror of the nested `add_module_def`: top-level declarations dispatch on
their kind, filter by their own location file, and insert under the matching
category; nested modules, sum-type variants and builtin types are skipped. -/
def add_module_def (db : DefDatabase) (map : DynMap) (file_id : HirFileId)
    (item : ModuleDefId) : DynMap :=
  match item with
  | ModuleDefId.FunctionId id =>
    let loc := db.lookup (Ident.FunctionId id)
    if loc.file_id = file_id then map.insert Key.FUNCTION loc.node (Ident.FunctionId id) else map
  | ModuleDefId.ConstId id =>
    let loc := db.lookup (Ident.ConstId id)
    if loc.file_id = file_id then map.insert Key.CONST loc.node (Ident.ConstId id) else map
  | ModuleDefId.StaticId id =>
    let loc := db.lookup (Ident.StaticId id)
    if loc.file_id = file_id then map.insert Key.STATIC loc.node (Ident.StaticId id) else map
  | ModuleDefId.TypeAliasId id =>
    let loc := db.lookup (Ident.TypeAliasId id)
    if loc.file_id = file_id then map.insert Key.TYPE_ALIAS loc.node (Ident.TypeAliasId id) else map
  | ModuleDefId.TraitId id =>
    let loc := db.lookup (Ident.TraitId id)
    if loc.file_id = file_id then map.insert Key.TRAIT loc.node (Ident.TraitId id) else map
  | ModuleDefId.TraitAliasId id =>
    let loc := db.lookup (Ident.TraitAliasId id)
    if loc.file_id = file_id then map.insert Key.TRAIT_ALIAS loc.node (Ident.TraitAliasId id)
    else map
  | ModuleDefId.AdtId (AdtId.StructId id) =>
    let loc := db.lookup (Ident.StructId id)
    if loc.file_id = file_id then map.insert Key.STRUCT loc.node (Ident.StructId id) else map
  | ModuleDefId.AdtId (AdtId.UnionId id) =>
    let loc := db.lookup (Ident.UnionId id)
    if loc.file_id = file_id then map.insert Key.UNION loc.node (Ident.UnionId id) else map
  | ModuleDefId.AdtId (AdtId.EnumId id) =>
    let loc := db.lookup (Ident.EnumId id)
    if loc.file_id = file_id then map.insert Key.ENUM loc.node (Ident.EnumId id) else map
  | ModuleDefId.MacroId (MacroId.Macro2Id id) =>
    let loc := db.lookup (Ident.Macro2Id id)
    if loc.file_id = file_id then map.insert Key.MACRO2 loc.node (Ident.Macro2Id id) else map
  | ModuleDefId.MacroId (MacroId.MacroRulesId id) =>
    let loc := db.lookup (Ident.MacroRulesId id)
    if loc.file_id = file_id then map.insert Key.MACRO_RULES loc.node (Ident.MacroRulesId id)
    else map
  | ModuleDefId.MacroId (MacroId.ProcMacroId id) =>
    let loc := db.lookup (Ident.ProcMacroId id)
    if loc.file_id = file_id then map.insert Key.PROC_MACRO loc.node (Ident.ProcMacroId id)
    else map
  | ModuleDefId.ModuleId _ => map
  | ModuleDefId.EnumVariantId _ => map
  | ModuleDefId.BuiltinType _ => map

/-- Mirror of the nested `add_impl`. -/
def add_impl (db : DefDatabase) (map : DynMap) (file_id : HirFileId) (imp : Nat) : DynMap :=
  let loc := db.lookup (Ident.ImplId imp)
  if loc.file_id = file_id then map.insert Key.IMPL loc.node (Ident.ImplId imp) else map

/-- Mirror of the nested `add_extern_crate`. -/
def add_extern_crate (db : DefDatabase) (map : DynMap) (file_id : HirFileId) (ext : Nat) :
    DynMap :=
  let loc := db.lookup (Ident.ExternCrateId ext)
  if loc.file_id = file_id then map.insert Key.EXTERN_CRATE loc.node (Ident.ExternCrateId ext)
  else map

/-- Mirror of the nested `add_use`. -/
def add_use (db : DefDatabase) (map : DynMap) (file_id : HirFileId) (ext : Nat) : DynMap :=
  let loc := db.lookup (Ident.UseId ext)
  if loc.file_id = file_id then map.insert Key.USE loc.node (Ident.UseId ext) else map

/-- Mirror of `ChildBySource for ItemScope`: declarations, impls, extern
crates, use declarations, unnamed constants, attribute-macro invocation
sites, legacy textual macros resolving to `MacroRulesId`, and positional
derive-macro invocations, in source order. -/
def ItemScope.child_by_source_to (db : DefDatabase) (self : ItemScope) (res : DynMap)
    (file_id : HirFileId) : DynMap :=
  let res := self.declarations.foldl (fun r item => add_module_def db r file_id item) res
  let res := self.impls.foldl (fun r imp => add_impl db r file_id imp) res
  let res := self.externCrateDecls.foldl (fun r ext => add_extern_crate db r file_id ext) res
  let res := self.useDecls.foldl (fun r ext => add_use db r file_id ext) res
  let res := self.unnamedConsts.foldl
    (fun r konst =>
      let loc := db.lookup (Ident.ConstId konst)
      if loc.file_id = file_id then r.insert Key.CONST loc.node (Ident.ConstId konst) else r)
    res
  let res := (self.attrMacroInvocs.filter fun p => decide (p.1.file_id = file_id)).foldl
    (fun r p => r.insert Key.ATTR_MACRO_CALL p.1.node (Ident.MacroCallId p.2)) res
  let res := self.legacyMacros.foldl
    (fun r p =>
      p.2.foldl
        (fun r id =>
          match id with
          | MacroId.MacroRulesId mid =>
            let loc := db.lookup (Ident.MacroRulesId mid)
            if loc.file_id = file_id then
              r.insert Key.MACRO_RULES loc.node (Ident.MacroRulesId mid)
            else r
          | _ => r)
        r)
    res
  let res := (self.deriveMacroInvocs.filter fun p => decide (p.1.file_id = file_id)).foldl
    (fun r p =>
      p.2.foldl
        (fun r c =>
          match (db.collectAttrs p.1.node).get? c.1 with
          | some (Sum.inl attr) =>
            r.insert Key.DERIVE_MACRO_CALL attr (Ident.DeriveCall c.1 c.2.1 c.2.2)
          | _ => r)
        r)
    res
  res

/-- Mirror of `ChildBySource for ModuleId`: delegate to the module's item
scope. -/
def ModuleId.child_by_source_to (db : DefDatabase) (self : Nat) (res : DynMap)
    (file_id : HirFileId) : DynMap :=
  ItemScope.child_by_source_to db (db.moduleScope self) res file_id

/-- Indexed enumeration of an arena, mirroring `arena_map.value.iter()` which
yields `(local_id, source)` pairs with `local_id` counting from zero. -/
def enumSlots : Nat → List α → List (Nat × α)
  | _, [] => []
  | i, a :: rest => (i, a) :: enumSlots (i + 1) rest

/-- Mirror of `ChildBySource for VariantId`: the requested file identity is
ignored; every arena slot is emitted as a `FieldId` under the tuple-field or
record-field category according to the slot's form. -/
def VariantId.child_by_source_to (db : DefDatabase) (self : VariantId) (res : DynMap)
    (_file_id : HirFileId) : DynMap :=
  let arena_map := db.variantChildSource self
  let parent := self
  (enumSlots 0 arena_map.fields).foldl
    (fun r p =>
      let id := Ident.FieldIdent ⟨parent, p.1⟩
      match p.2 with
      | Sum.inl source => r.insert Key.TUPLE_FIELD source id
      | Sum.inr source => r.insert Key.RECORD_FIELD source id)
    res

/-- Mirror of `ChildBySource for EnumId`: skip the whole container unless the
requested file equals the container's own defining file, then emit every
variant at its resolved declaration-tree node. -/
def EnumId.child_by_source_to (db : DefDatabase) (self : Nat) (res : DynMap)
    (file_id : HirFileId) : DynMap :=
  let loc := db.lookup (Ident.EnumId self)
  if file_id ≠ loc.file_id then res
  else
    (db.enumData self).foldl
      (fun r variant => r.insert Key.ENUM_VARIANT (db.variantNode variant)
        (Ident.EnumVariantId variant))
      res

/-- Mirror of `ChildBySource for DefWithBodyId`: a sum-type-variant's body
first delegates to the variant's own field traversal, then every nested block
scope discovered during body lowering is merged into the same map. -/
def DefWithBodyId.child_by_source_to (db : DefDatabase) (self : DefWithBodyId) (res : DynMap)
    (file_id : HirFileId) : DynMap :=
  let res :=
    match self with
    | DefWithBodyId.VariantId v =>
      VariantId.child_by_source_to db (VariantId.EnumVariantId v) res file_id
    | _ => res
  (db.bodyBlockScopes self).foldl
    (fun r scope => ItemScope.child_by_source_to db scope r file_id) res

/-- Dispatch of `child_by_source_to` over the container kinds implementing
`ChildBySource`. -/
def child_by_source_to (db : DefDatabase) : Container → DynMap → HirFileId → DynMap
  | Container.trait t, res, file_id => TraitId.child_by_source_to db t res file_id
  | Container.impl i, res, file_id => ImplId.child_by_source_to db i res file_id
  | Container.module m, res, file_id => ModuleId.child_by_source_to db m res file_id
  | Container.scope s, res, file_id => ItemScope.child_by_source_to db s res file_id
  | Container.variant v, res, file_id => VariantId.child_by_source_to db v res file_id
  | Container.enum e, res, file_id => EnumId.child_by_source_to db e res file_id
  | Container.body b, res, file_id => DefWithBodyId.child_by_source_to db b res file_id

/-- Mirror of the provided `ChildBySource::child_by_source`: populate a fresh
default map and return it. -/
def child_by_source (db : DefDatabase) (c : Container) (file_id : HirFileId) : DynMap :=
  child_by_source_to db c ([] : DynMap) file_id

/-- Sub-map coordinate of an entry: the category key together with the syntax
node keying the entry inside that category's sub-map. -/
def entryKey (e : Entry) : Key × SyntaxNode := (e.key, e.node)

/-- Well-formedness of a populated map: no (key, node) coordinate is bound
twice, i.e. within each category's sub-map every node maps to at most one
identifier. -/
def DynMap.Wf (m : DynMap) : Prop := (m.map entryKey).Nodup

/-- Replay of a sequence of insertions over an initial map.  Every traversal
below performs a sequence of inserts that does not depend on the accumulated
map, so each traversal is the replay of a computable insertion program. -/
def applyInserts (l : List Entry) (m : DynMap) : DynMap :=
  l.foldl (fun r e => r.insert e.key e.node e.id) m

theorem applyInserts_nil (m : DynMap) : applyInserts [] m = m := rfl

theorem applyInserts_cons (e : Entry) (l : List Entry) (m : DynMap) :
    applyInserts (e :: l) m = applyInserts l (m.insert e.key e.node e.id) := rfl

theorem applyInserts_append (l₁ l₂ : List Entry) (m : DynMap) :
    applyInserts (l₁ ++ l₂) m = applyInserts l₂ (applyInserts l₁ m) :=
  List.foldl_append ..

theorem mem_insert_iff (a : Entry) (m : DynMap) (k : Key) (n : SyntaxNode) (v : Ident) :
    a ∈ DynMap.insert m k n v ↔ a = ⟨k, n, v⟩ ∨ (a ∈ m ∧ ¬(a.key = k ∧ a.node = n)) := by
  simp [DynMap.insert, List.mem_filter]
  tauto

/-- Insertion leaves a map unchanged apart from consing when no existing entry
shares the inserted coordinate. -/
theorem insert_eq_cons (m : DynMap) (k : Key) (n : SyntaxNode) (v : Ident)
    (h : ∀ a ∈ m, ¬(a.key = k ∧ a.node = n)) :
    DynMap.insert m k n v = ⟨k, n, v⟩ :: m := by
  unfold DynMap.insert
  congr 1
  refine List.filter_eq_self.mpr fun a ha => ?_
  simp only [Bool.not_eq_true', decide_eq_false_iff_not]
  exact h a ha

/-- Entries of a replay come from the program or from the initial map. -/
theorem mem_applyInserts (l : List Entry) :
    ∀ (m : DynMap) (a : Entry), a ∈ applyInserts l m → a ∈ l ∨ a ∈ m := by
  induction l with
  | nil => intro m a h; exact Or.inr h
  | cons e t ih =>
    intro m a h
    rw [applyInserts_cons] at h
    rcases ih _ a h with h' | h'
    · exact Or.inl (List.mem_cons_of_mem _ h')
    · rcases (mem_insert_iff ..).mp h' with h'' | h''
      · exact Or.inl (by simp [h''])
      · exact Or.inr h''.1

/-- Replay of a program whose coordinates are fresh and mutually distinct is
plain list concatenation (in reverse insertion order). -/
theorem applyInserts_eq_append (l : List Entry) :
    ∀ (m : DynMap), (l.map entryKey).Nodup →
      (∀ a ∈ m, ∀ b ∈ l, ¬(a.key = b.key ∧ a.node = b.node)) →
      applyInserts l m = l.reverse ++ m := by
  induction l with
  | nil => intro m _ _; rfl
  | cons e t ih =>
    intro m hnd hd
    rw [List.map_cons, List.nodup_cons] at hnd
    obtain ⟨hfresh, hnd'⟩ := hnd
    rw [applyInserts_cons]
    rw [insert_eq_cons m e.key e.node e.id
      (fun a ha => hd a ha e (List.mem_cons_self e t))]
    have hd' : ∀ a ∈ e :: m, ∀ b ∈ t, ¬(a.key = b.key ∧ a.node = b.node) := by
      intro a ha b hb
      rcases List.mem_cons.mp ha with rfl | ha'
      · intro hcol
        refine hfresh ?_
        have hk : entryKey a = entryKey b := by
          simp [entryKey, hcol.1, hcol.2]
        rw [hk]
        exact List.mem_map_of_mem entryKey hb
      · exact hd a ha' b (List.mem_cons_of_mem _ hb)
    rw [show (⟨e.key, e.node, e.id⟩ : Entry) :: m = e :: m from rfl]
    rw [ih (e :: m) hnd' hd']
    simp

/-- Membership in a replay from the empty map, for a program with mutually
distinct coordinates. -/
theorem mem_applyInserts_iff (l : List Entry) (hnd : (l.map entryKey).Nodup) (a : Entry) :
    a ∈ applyInserts l [] ↔ a ∈ l := by
  rw [applyInserts_eq_append l [] hnd (by simp)]
  simp

/-- Size of a replay from the empty map, for a program with mutually distinct
coordinates: one entry per program element. -/
theorem length_applyInserts (l : List Entry) (hnd : (l.map entryKey).Nodup) :
    (applyInserts l []).length = l.length := by
  rw [applyInserts_eq_append l [] hnd (by simp)]
  simp

theorem wf_insert (m : DynMap) (k : Key) (n : SyntaxNode) (v : Ident) (h : DynMap.Wf m) :
    DynMap.Wf (DynMap.insert m k n v) := by
  unfold DynMap.Wf DynMap.insert at *
  rw [List.map_cons, List.nodup_cons]
  constructor
  · intro hmem
    rcases List.mem_map.mp hmem with ⟨a, ha, hk⟩
    have := (List.mem_filter.mp ha).2
    simp only [Bool.not_eq_true', decide_eq_false_iff_not] at this
    exact this (by
      have h1 : a.key = k := congrArg Prod.fst hk
      have h2 : a.node = n := congrArg Prod.snd hk
      exact ⟨h1, h2⟩)
  · exact h.sublist ((List.filter_sublist m).map entryKey)

/-- Replay preserves well-formedness, for any program whatsoever. -/
theorem wf_applyInserts (l : List Entry) :
    ∀ (m : DynMap), DynMap.Wf m → DynMap.Wf (applyInserts l m) := by
  induction l with
  | nil => intro m h; exact h
  | cons e t ih =>
    intro m h
    rw [applyInserts_cons]
    exact ih _ (wf_insert m e.key e.node e.id h)

theorem wf_nil : DynMap.Wf ([] : DynMap) := by simp [DynMap.Wf]

/-- Folding a step function that replays a per-element program is itself the
replay of the concatenated program. -/
theorem foldl_eq_applyInserts {α : Type} (g : α → List Entry) (step : DynMap → α → DynMap)
    (hstep : ∀ r a, step r a = applyInserts (g a) r) (l : List α) :
    ∀ m : DynMap, l.foldl step m = applyInserts (l.flatMap g) m := by
  induction l with
  | nil => intro m; rfl
  | cons a t ih =>
    intro m
    rw [List.foldl_cons, List.flatMap_cons, applyInserts_append, ih, hstep]

/-- Insertion program of `add_assoc_item`. -/
def assocItemInserts (db : DefDatabase) (file_id : HirFileId) (item : AssocItemId) :
    List Entry :=
  match item with
  | AssocItemId.FunctionId func =>
    let loc := db.lookup (Ident.FunctionId func)
    if loc.file_id = file_id then [⟨Key.FUNCTION, loc.node, Ident.FunctionId func⟩] else []
  | AssocItemId.ConstId konst =>
    let loc := db.lookup (Ident.ConstId konst)
    if loc.file_id = file_id then [⟨Key.CONST, loc.node, Ident.ConstId konst⟩] else []
  | AssocItemId.TypeAliasId ty =>
    let loc := db.lookup (Ident.TypeAliasId ty)
    if loc.file_id = file_id then [⟨Key.TYPE_ALIAS, loc.node, Ident.TypeAliasId ty⟩] else []

theorem add_assoc_item_eq (db : DefDatabase) (res : DynMap) (file_id : HirFileId)
    (item : AssocItemId) :
    add_assoc_item db res file_id item = applyInserts (assocItemInserts db file_id item) res := by
  cases item <;> (dsimp only [add_assoc_item, assocItemInserts]; split <;> rfl)

/-- Insertion program of one attribute-invocation stage: the invocation sites
surviving the file filter, each contributing one `ATTR_MACRO_CALL` entry. -/
def attrCallInserts (calls : List (AstId × Nat)) (file_id : HirFileId) : List Entry :=
  (calls.filter fun p => decide (p.1.file_id = file_id)).flatMap fun p =>
    [⟨Key.ATTR_MACRO_CALL, p.1.node, Ident.MacroCallId p.2⟩]

/-- Insertion program of the interface-definition policy. -/
def traitInserts (db : DefDatabase) (self : Nat) (file_id : HirFileId) : List Entry :=
  attrCallInserts (db.traitData self).attributeCalls file_id ++
    (db.traitData self).items.flatMap fun p => assocItemInserts db file_id p.2

/-- Insertion program of the implementation-block policy. -/
def implInserts (db : DefDatabase) (self : Nat) (file_id : HirFileId) : List Entry :=
  attrCallInserts (db.implData self).attributeCalls file_id ++
    (db.implData self).items.flatMap fun item => assocItemInserts db file_id item

theorem trait_cbs_eq (db : DefDatabase) (self : Nat) (res : DynMap) (file_id : HirFileId) :
    TraitId.child_by_source_to db self res file_id =
      applyInserts (traitInserts db self file_id) res := by
  dsimp only [TraitId.child_by_source_to]
  rw [foldl_eq_applyInserts
      (fun (p : AstId × Nat) => [⟨Key.ATTR_MACRO_CALL, p.1.node, Ident.MacroCallId p.2⟩])
      (fun (r : DynMap) (p : AstId × Nat) =>
        r.insert Key.ATTR_MACRO_CALL p.1.node (Ident.MacroCallId p.2))
      (fun _ _ => rfl)]
  rw [foldl_eq_applyInserts
      (fun (p : Nat × AssocItemId) => assocItemInserts db file_id p.2)
      (fun (r : DynMap) (p : Nat × AssocItemId) => add_assoc_item db r file_id p.2)
      (fun r p => add_assoc_item_eq db r file_id p.2)]
  rw [traitInserts, attrCallInserts, applyInserts_append]

theorem impl_cbs_eq (db : DefDatabase) (self : Nat) (res : DynMap) (file_id : HirFileId) :
    ImplId.child_by_source_to db self res file_id =
      applyInserts (implInserts db self file_id) res := by
  dsimp only [ImplId.child_by_source_to]
  rw [foldl_eq_applyInserts
      (fun (p : AstId × Nat) => [⟨Key.ATTR_MACRO_CALL, p.1.node, Ident.MacroCallId p.2⟩])
      (fun (r : DynMap) (p : AstId × Nat) =>
        r.insert Key.ATTR_MACRO_CALL p.1.node (Ident.MacroCallId p.2))
      (fun _ _ => rfl)]
  rw [foldl_eq_applyInserts
      (fun item => assocItemInserts db file_id item)
      (fun r item => add_assoc_item db r file_id item)
      (fun r item => add_assoc_item_eq db r file_id item)]
  rw [implInserts, attrCallInserts, applyInserts_append]

/-- Insertion program of `add_module_def`. -/
def moduleDefInserts (db : DefDatabase) (file_id : HirFileId) (item : ModuleDefId) :
    List Entry :=
  match item with
  | ModuleDefId.FunctionId id =>
    let loc := db.lookup (Ident.FunctionId id)
    if loc.file_id = file_id then [⟨Key.FUNCTION, loc.node, Ident.FunctionId id⟩] else []
  | ModuleDefId.ConstId id =>
    let loc := db.lookup (Ident.ConstId id)
    if loc.file_id = file_id then [⟨Key.CONST, loc.node, Ident.ConstId id⟩] else []
  | ModuleDefId.StaticId id =>
    let loc := db.lookup (Ident.StaticId id)
    if loc.file_id = file_id then [⟨Key.STATIC, loc.node, Ident.StaticId id⟩] else []
  | ModuleDefId.TypeAliasId id =>
    let loc := db.lookup (Ident.TypeAliasId id)
    if loc.file_id = file_id then [⟨Key.TYPE_ALIAS, loc.node, Ident.TypeAliasId id⟩] else []
  | ModuleDefId.TraitId id =>
    let loc := db.lookup (Ident.TraitId id)
    if loc.file_id = file_id then [⟨Key.TRAIT, loc.node, Ident.TraitId id⟩] else []
  | ModuleDefId.TraitAliasId id =>
    let loc := db.lookup (Ident.TraitAliasId id)
    if loc.file_id = file_id then [⟨Key.TRAIT_ALIAS, loc.node, Ident.TraitAliasId id⟩] else []
  | ModuleDefId.AdtId (AdtId.StructId id) =>
    let loc := db.lookup (Ident.StructId id)
    if loc.file_id = file_id then [⟨Key.STRUCT, loc.node, Ident.StructId id⟩] else []
  | ModuleDefId.AdtId (AdtId.UnionId id) =>
    let loc := db.lookup (Ident.UnionId id)
    if loc.file_id = file_id then [⟨Key.UNION, loc.node, Ident.UnionId id⟩] else []
  | ModuleDefId.AdtId (AdtId.EnumId id) =>
    let loc := db.lookup (Ident.EnumId id)
    if loc.file_id = file_id then [⟨Key.ENUM, loc.node, Ident.EnumId id⟩] else []
  | ModuleDefId.MacroId (MacroId.Macro2Id id) =>
    let loc := db.lookup (Ident.Macro2Id id)
    if loc.file_id = file_id then [⟨Key.MACRO2, loc.node, Ident.Macro2Id id⟩] else []
  | ModuleDefId.MacroId (MacroId.MacroRulesId id) =>
    let loc := db.lookup (Ident.MacroRulesId id)
    if loc.file_id = file_id then [⟨Key.MACRO_RULES, loc.node, Ident.MacroRulesId id⟩] else []
  | ModuleDefId.MacroId (MacroId.ProcMacroId id) =>
    let loc := db.lookup (Ident.ProcMacroId id)
    if loc.file_id = file_id then [⟨Key.PROC_MACRO, loc.node, Ident.ProcMacroId id⟩] else []
  | ModuleDefId.ModuleId _ => []
  | ModuleDefId.EnumVariantId _ => []
  | ModuleDefId.BuiltinType _ => []

theorem add_module_def_eq (db : DefDatabase) (map : DynMap) (file_id : HirFileId)
    (item : ModuleDefId) :
    add_module_def db map file_id item = applyInserts (moduleDefInserts db file_id item) map := by
  cases item
  case AdtId adt =>
    cases adt <;> (dsimp only [add_module_def, moduleDefInserts]; split <;> rfl)
  case MacroId m =>
    cases m <;> (dsimp only [add_module_def, moduleDefInserts]; split <;> rfl)
  all_goals dsimp only [add_module_def, moduleDefInserts]
  all_goals first
    | rfl
    | (split <;> rfl)

/-- Insertion program of `add_impl`. -/
def addImplInserts (db : DefDatabase) (file_id : HirFileId) (imp : Nat) : List Entry :=
  let loc := db.lookup (Ident.ImplId imp)
  if loc.file_id = file_id then [⟨Key.IMPL, loc.node, Ident.ImplId imp⟩] else []

theorem add_impl_eq (db : DefDatabase) (map : DynMap) (file_id : HirFileId) (imp : Nat) :
    add_impl db map file_id imp = applyInserts (addImplInserts db file_id imp) map := by
  dsimp only [add_impl, addImplInserts]; split <;> rfl

/-- Insertion program of `add_extern_crate`. -/
def addExternCrateInserts (db : DefDatabase) (file_id : HirFileId) (ext : Nat) : List Entry :=
  let loc := db.lookup (Ident.ExternCrateId ext)
  if loc.file_id = file_id then [⟨Key.EXTERN_CRATE, loc.node, Ident.ExternCrateId ext⟩] else []

theorem add_extern_crate_eq (db : DefDatabase) (map : DynMap) (file_id : HirFileId) (ext : Nat) :
    add_extern_crate db map file_id ext =
      applyInserts (addExternCrateInserts db file_id ext) map := by
  dsimp only [add_extern_crate, addExternCrateInserts]; split <;> rfl

/-- Insertion program of `add_use`. -/
def addUseInserts (db : DefDatabase) (file_id : HirFileId) (ext : Nat) : List Entry :=
  let loc := db.lookup (Ident.UseId ext)
  if loc.file_id = file_id then [⟨Key.USE, loc.node, Ident.UseId ext⟩] else []

theorem add_use_eq (db : DefDatabase) (map : DynMap) (file_id : HirFileId) (ext : Nat) :
    add_use db map file_id ext = applyInserts (addUseInserts db file_id ext) map := by
  dsimp only [add_use, addUseInserts]; split <;> rfl

/-- Insertion program of one anonymous-constant slot. -/
def unnamedConstInserts (db : DefDatabase) (file_id : HirFileId) (konst : Nat) : List Entry :=
  let loc := db.lookup (Ident.ConstId konst)
  if loc.file_id = file_id then [⟨Key.CONST, loc.node, Ident.ConstId konst⟩] else []

/-- Insertion program of one legacy textual-macro resolution target: only a
`MacroRulesId` target in the requested file contributes. -/
def legacyIdInserts (db : DefDatabase) (file_id : HirFileId) (id : MacroId) : List Entry :=
  match id with
  | MacroId.MacroRulesId mid =>
    let loc := db.lookup (Ident.MacroRulesId mid)
    if loc.file_id = file_id then [⟨Key.MACRO_RULES, loc.node, Ident.MacroRulesId mid⟩] else []
  | _ => []

/-- Insertion program of one recorded derive invocation on an item node:
contributes exactly when the stored zero-based slot of the re-collected
attribute sequence holds a genuine attribute. -/
def deriveCallInserts (db : DefDatabase) (adt : SyntaxNode)
    (c : Nat × Nat × List (Option Nat)) : List Entry :=
  match (db.collectAttrs adt).get? c.1 with
  | some (Sum.inl attr) => [⟨Key.DERIVE_MACRO_CALL, attr, Ident.DeriveCall c.1 c.2.1 c.2.2⟩]
  | _ => []

/-- Insertion program of the module/item-scope policy, in traversal order. -/
def scopeInserts (db : DefDatabase) (self : ItemScope) (file_id : HirFileId) : List Entry :=
  self.declarations.flatMap (moduleDefInserts db file_id) ++
    self.impls.flatMap (addImplInserts db file_id) ++
    self.externCrateDecls.flatMap (addExternCrateInserts db file_id) ++
    self.useDecls.flatMap (addUseInserts db file_id) ++
    self.unnamedConsts.flatMap (unnamedConstInserts db file_id) ++
    attrCallInserts self.attrMacroInvocs file_id ++
    (self.legacyMacros.flatMap fun p => p.2.flatMap (legacyIdInserts db file_id)) ++
    ((self.deriveMacroInvocs.filter fun p => decide (p.1.file_id = file_id)).flatMap fun p =>
      p.2.flatMap (deriveCallInserts db p.1.node))

theorem scope_cbs_eq (db : DefDatabase) (self : ItemScope) (res : DynMap)
    (file_id : HirFileId) :
    ItemScope.child_by_source_to db self res file_id =
      applyInserts (scopeInserts db self file_id) res := by
  dsimp only [ItemScope.child_by_source_to]
  rw [foldl_eq_applyInserts
      (fun item => moduleDefInserts db file_id item)
      (fun r item => add_module_def db r file_id item)
      (fun r item => add_module_def_eq db r file_id item)]
  rw [foldl_eq_applyInserts
      (fun imp => addImplInserts db file_id imp)
      (fun r imp => add_impl db r file_id imp)
      (fun r imp => add_impl_eq db r file_id imp)]
  rw [foldl_eq_applyInserts
      (fun ext => addExternCrateInserts db file_id ext)
      (fun r ext => add_extern_crate db r file_id ext)
      (fun r ext => add_extern_crate_eq db r file_id ext)]
  rw [foldl_eq_applyInserts
      (fun ext => addUseInserts db file_id ext)
      (fun r ext => add_use db r file_id ext)
      (fun r ext => add_use_eq db r file_id ext)]
  rw [foldl_eq_applyInserts
      (fun konst => unnamedConstInserts db file_id konst)
      (fun r konst =>
        let loc := db.lookup (Ident.ConstId konst)
        if loc.file_id = file_id then r.insert Key.CONST loc.node (Ident.ConstId konst) else r)
      (fun r konst => by dsimp only [unnamedConstInserts]; split <;> rfl)]
  rw [foldl_eq_applyInserts
      (fun (p : AstId × Nat) => [⟨Key.ATTR_MACRO_CALL, p.1.node, Ident.MacroCallId p.2⟩])
      (fun (r : DynMap) (p : AstId × Nat) =>
        r.insert Key.ATTR_MACRO_CALL p.1.node (Ident.MacroCallId p.2))
      (fun _ _ => rfl)]
  rw [foldl_eq_applyInserts
      (fun (p : Nat × List MacroId) => p.2.flatMap (legacyIdInserts db file_id))
      (fun r (p : Nat × List MacroId) =>
        p.2.foldl
          (fun r id =>
            match id with
            | MacroId.MacroRulesId mid =>
              let loc := db.lookup (Ident.MacroRulesId mid)
              if loc.file_id = file_id then
                r.insert Key.MACRO_RULES loc.node (Ident.MacroRulesId mid)
              else r
            | _ => r)
          r)
      (fun r p => by
        refine foldl_eq_applyInserts (legacyIdInserts db file_id) _ ?_ p.2 r
        intro r id
        cases id <;> (dsimp only [legacyIdInserts]) <;> first | rfl | (split <;> rfl))]
  rw [foldl_eq_applyInserts
      (fun (p : AstId × List (Nat × Nat × List (Option Nat))) =>
        p.2.flatMap (deriveCallInserts db p.1.node))
      (fun r p =>
        p.2.foldl
          (fun r c =>
            match (db.collectAttrs p.1.node).get? c.1 with
            | some (Sum.inl attr) =>
              r.insert Key.DERIVE_MACRO_CALL attr (Ident.DeriveCall c.1 c.2.1 c.2.2)
            | _ => r)
          r)
      (fun r p => by
        refine foldl_eq_applyInserts (deriveCallInserts db p.1.node) _ ?_ p.2 r
        intro r c
        dsimp only [deriveCallInserts]
        cases hx : (db.collectAttrs p.1.node).get? c.1 with
        | none => rfl
        | some v => cases v <;> rfl)]
  rw [scopeInserts, attrCallInserts]
  rw [applyInserts_append, applyInserts_append, applyInserts_append, applyInserts_append,
    applyInserts_append, applyInserts_append, applyInserts_append]

theorem module_cbs_eq (db : DefDatabase) (self : Nat) (res : DynMap) (file_id : HirFileId) :
    ModuleId.child_by_source_to db self res file_id =
      applyInserts (scopeInserts db (db.moduleScope self) file_id) res :=
  scope_cbs_eq db (db.moduleScope self) res file_id

/-- Insertion program of the field policy: one entry per arena slot, for any
requested file identity. -/
def variantInserts (db : DefDatabase) (v : VariantId) : List Entry :=
  (enumSlots 0 (db.variantChildSource v).fields).flatMap fun p =>
    match p.2 with
    | Sum.inl source => [⟨Key.TUPLE_FIELD, source, Ident.FieldIdent ⟨v, p.1⟩⟩]
    | Sum.inr source => [⟨Key.RECORD_FIELD, source, Ident.FieldIdent ⟨v, p.1⟩⟩]

theorem variant_cbs_eq (db : DefDatabase) (v : VariantId) (res : DynMap)
    (file_id : HirFileId) :
    VariantId.child_by_source_to db v res file_id =
      applyInserts (variantInserts db v) res := by
  dsimp only [VariantId.child_by_source_to, variantInserts]
  refine foldl_eq_applyInserts _ _ ?_ _ res
  intro r p
  cases p.2 <;> rfl

/-- Insertion program of the sum-type policy: nothing unless the requested
file is the container's own defining file, else one entry per variant. -/
def enumInserts (db : DefDatabase) (self : Nat) (file_id : HirFileId) : List Entry :=
  if file_id ≠ (db.lookup (Ident.EnumId self)).file_id then []
  else
    (db.enumData self).flatMap fun variant =>
      [⟨Key.ENUM_VARIANT, db.variantNode variant, Ident.EnumVariantId variant⟩]

theorem enum_cbs_eq (db : DefDatabase) (self : Nat) (res : DynMap) (file_id : HirFileId) :
    EnumId.child_by_source_to db self res file_id =
      applyInserts (enumInserts db self file_id) res := by
  dsimp only [EnumId.child_by_source_to, enumInserts]
  split
  · rfl
  · refine foldl_eq_applyInserts _ _ ?_ _ res
    intro r variant
    rfl

/-- Insertion program of the executable-body policy: the variant's own field
program when the body belongs to a sum-type variant, then every nested block
scope's module-scope program, merged in order. -/
def bodyInserts (db : DefDatabase) (self : DefWithBodyId) (file_id : HirFileId) : List Entry :=
  (match self with
   | DefWithBodyId.VariantId v => variantInserts db (VariantId.EnumVariantId v)
   | _ => []) ++
    (db.bodyBlockScopes self).flatMap fun scope => scopeInserts db scope file_id

theorem body_cbs_eq (db : DefDatabase) (self : DefWithBodyId) (res : DynMap)
    (file_id : HirFileId) :
    DefWithBodyId.child_by_source_to db self res file_id =
      applyInserts (bodyInserts db self file_id) res := by
  dsimp only [DefWithBodyId.child_by_source_to, bodyInserts]
  rw [foldl_eq_applyInserts
      (fun scope => scopeInserts db scope file_id)
      (fun r scope => ItemScope.child_by_source_to db scope r file_id)
      (fun r scope => scope_cbs_eq db scope r file_id)]
  rw [applyInserts_append]
  cases self <;> simp only [variant_cbs_eq, applyInserts_nil]

/-- Insertion program of the full dispatch. -/
def containerInserts (db : DefDatabase) : Container → HirFileId → List Entry
  | Container.trait t, file_id => traitInserts db t file_id
  | Container.impl i, file_id => implInserts db i file_id
  | Container.module m, file_id => scopeInserts db (db.moduleScope m) file_id
  | Container.scope s, file_id => scopeInserts db s file_id
  | Container.variant v, _ => variantInserts db v
  | Container.enum e, file_id => enumInserts db e file_id
  | Container.body b, file_id => bodyInserts db b file_id

theorem cbs_to_eq (db : DefDatabase) (c : Container) (res : DynMap) (file_id : HirFileId) :
    child_by_source_to db c res file_id =
      applyInserts (containerInserts db c file_id) res := by
  cases c with
  | trait t => exact trait_cbs_eq db t res file_id
  | impl i => exact impl_cbs_eq db i res file_id
  | module m => exact module_cbs_eq db m res file_id
  | scope s => exact scope_cbs_eq db s res file_id
  | variant v => exact variant_cbs_eq db v res file_id
  | enum e => exact enum_cbs_eq db e res file_id
  | body b => exact body_cbs_eq db b res file_id

theorem cbs_eq (db : DefDatabase) (c : Container) (file_id : HirFileId) :
    child_by_source db c file_id = applyInserts (containerInserts db c file_id) [] :=
  cbs_to_eq db c [] file_id

/-- Consistency of recorded invocation sites with the database: the location
recorded for a macro invocation identifier is its invocation-site file.  The
specification relies on this ("the recorded reference already targets the
right file"). -/
def AttrCallsConsistent (db : DefDatabase) (calls : List (AstId × Nat)) : Prop :=
  ∀ p ∈ calls, (db.lookup (Ident.MacroCallId p.2)).file_id = p.1.file_id

/-- Consistency of an item scope's invocation records with the database. -/
def ScopeConsistent (db : DefDatabase) (s : ItemScope) : Prop :=
  AttrCallsConsistent db s.attrMacroInvocs ∧
    ∀ p ∈ s.deriveMacroInvocs, ∀ c ∈ p.2,
      (db.lookup (Ident.DeriveCall c.1 c.2.1 c.2.2)).file_id = p.1.file_id

/-- Consistency of the data reachable from one container with the recorded
locations: invocation identifiers are located at their invocation site, and a
sum type's variants are located in the sum type's own defining file. -/
def ContainerConsistent (db : DefDatabase) : Container → Prop
  | Container.trait t => AttrCallsConsistent db (db.traitData t).attributeCalls
  | Container.impl i => AttrCallsConsistent db (db.implData i).attributeCalls
  | Container.module m => ScopeConsistent db (db.moduleScope m)
  | Container.scope s => ScopeConsistent db s
  | Container.variant _ => True
  | Container.enum e => ∀ v ∈ db.enumData e,
      (db.lookup (Ident.EnumVariantId v)).file_id = (db.lookup (Ident.EnumId e)).file_id
  | Container.body b => ∀ s ∈ db.bodyBlockScopes b, ScopeConsistent db s

/-- Containers whose traversal filters every emitted entry by the requested
file identity: all of them except the field policy, which ignores the request,
and a sum-type-variant's body, which delegates to the field policy. -/
def Container.filtersByFile : Container → Bool
  | Container.variant _ => false
  | Container.body (DefWithBodyId.VariantId _) => false
  | _ => true

/-- Membership in a guarded singleton program. -/
theorem mem_ite_singleton {c : Prop} [Decidable c] {x e : Entry}
    (he : e ∈ if c then [x] else ([] : List Entry)) : c ∧ e = x := by
  split at he
  · exact ⟨‹c›, List.mem_singleton.mp he⟩
  · cases he

theorem assocItemInserts_file (db : DefDatabase) (file_id : HirFileId) (item : AssocItemId)
    (e : Entry) (he : e ∈ assocItemInserts db file_id item) :
    (db.lookup e.id).file_id = file_id := by
  cases item <;> dsimp only [assocItemInserts] at he <;>
    (rcases mem_ite_singleton he with ⟨hc, rfl⟩; exact hc)

theorem moduleDefInserts_file (db : DefDatabase) (file_id : HirFileId) (item : ModuleDefId)
    (e : Entry) (he : e ∈ moduleDefInserts db file_id item) :
    (db.lookup e.id).file_id = file_id := by
  cases item
  case AdtId adt =>
    cases adt <;> dsimp only [moduleDefInserts] at he <;>
      (rcases mem_ite_singleton he with ⟨hc, rfl⟩; exact hc)
  case MacroId m =>
    cases m <;> dsimp only [moduleDefInserts] at he <;>
      (rcases mem_ite_singleton he with ⟨hc, rfl⟩; exact hc)
  all_goals dsimp only [moduleDefInserts] at he
  all_goals first
    | cases he
    | (rcases mem_ite_singleton he with ⟨hc, rfl⟩; exact hc)

theorem addImplInserts_file (db : DefDatabase) (file_id : HirFileId) (imp : Nat)
    (e : Entry) (he : e ∈ addImplInserts db file_id imp) :
    (db.lookup e.id).file_id = file_id := by
  dsimp only [addImplInserts] at he
  rcases mem_ite_singleton he with ⟨hc, rfl⟩; exact hc

theorem addExternCrateInserts_file (db : DefDatabase) (file_id : HirFileId) (ext : Nat)
    (e : Entry) (he : e ∈ addExternCrateInserts db file_id ext) :
    (db.lookup e.id).file_id = file_id := by
  dsimp only [addExternCrateInserts] at he
  rcases mem_ite_singleton he with ⟨hc, rfl⟩; exact hc

theorem addUseInserts_file (db : DefDatabase) (file_id : HirFileId) (ext : Nat)
    (e : Entry) (he : e ∈ addUseInserts db file_id ext) :
    (db.lookup e.id).file_id = file_id := by
  dsimp only [addUseInserts] at he
  rcases mem_ite_singleton he with ⟨hc, rfl⟩; exact hc

theorem unnamedConstInserts_file (db : DefDatabase) (file_id : HirFileId) (konst : Nat)
    (e : Entry) (he : e ∈ unnamedConstInserts db file_id konst) :
    (db.lookup e.id).file_id = file_id := by
  dsimp only [unnamedConstInserts] at he
  rcases mem_ite_singleton he with ⟨hc, rfl⟩; exact hc

theorem legacyIdInserts_file (db : DefDatabase) (file_id : HirFileId) (id : MacroId)
    (e : Entry) (he : e ∈ legacyIdInserts db file_id id) :
    (db.lookup e.id).file_id = file_id := by
  cases id <;> dsimp only [legacyIdInserts] at he
  case MacroRulesId mid =>
    rcases mem_ite_singleton he with ⟨hc, rfl⟩; exact hc
  all_goals cases he

theorem attrCallInserts_file (db : DefDatabase) (calls : List (AstId × Nat))
    (file_id : HirFileId) (hcon : AttrCallsConsistent db calls) (e : Entry)
    (he : e ∈ attrCallInserts calls file_id) :
    (db.lookup e.id).file_id = file_id := by
  rcases List.mem_flatMap.mp he with ⟨p, hp, hpe⟩
  rcases List.mem_filter.mp hp with ⟨hpc, hpf⟩
  rcases List.mem_singleton.mp hpe with rfl
  have hfile : p.1.file_id = file_id := of_decide_eq_true hpf
  exact (hcon p hpc).trans hfile

theorem deriveCallInserts_shape (db : DefDatabase) (adt : SyntaxNode)
    (c : Nat × Nat × List (Option Nat)) (e : Entry) (he : e ∈ deriveCallInserts db adt c) :
    e = ⟨Key.DERIVE_MACRO_CALL, e.node, Ident.DeriveCall c.1 c.2.1 c.2.2⟩ ∧
      (db.collectAttrs adt).get? c.1 = some (Sum.inl e.node) := by
  dsimp only [deriveCallInserts] at he
  split at he
  case h_1 attr hx =>
    rcases List.mem_singleton.mp he with rfl
    exact ⟨rfl, hx⟩
  case h_2 => cases he

theorem scopeInserts_file (db : DefDatabase) (s : ItemScope) (file_id : HirFileId)
    (hcon : ScopeConsistent db s) (e : Entry) (he : e ∈ scopeInserts db s file_id) :
    (db.lookup e.id).file_id = file_id := by
  dsimp only [scopeInserts] at he
  simp only [List.append_assoc, List.mem_append] at he
  rcases he with he | he | he | he | he | he | he | he
  · rcases List.mem_flatMap.mp he with ⟨item, _, hie⟩
    exact moduleDefInserts_file db file_id item e hie
  · rcases List.mem_flatMap.mp he with ⟨imp, _, hie⟩
    exact addImplInserts_file db file_id imp e hie
  · rcases List.mem_flatMap.mp he with ⟨ext, _, hie⟩
    exact addExternCrateInserts_file db file_id ext e hie
  · rcases List.mem_flatMap.mp he with ⟨ext, _, hie⟩
    exact addUseInserts_file db file_id ext e hie
  · rcases List.mem_flatMap.mp he with ⟨konst, _, hie⟩
    exact unnamedConstInserts_file db file_id konst e hie
  · exact attrCallInserts_file db s.attrMacroInvocs file_id hcon.1 e he
  · rcases List.mem_flatMap.mp he with ⟨p, _, hie⟩
    rcases List.mem_flatMap.mp hie with ⟨id, _, hie'⟩
    exact legacyIdInserts_file db file_id id e hie'
  · rcases List.mem_flatMap.mp he with ⟨p, hp, hie⟩
    rcases List.mem_filter.mp hp with ⟨hpc, hpf⟩
    rcases List.mem_flatMap.mp hie with ⟨c, hc, hce⟩
    rcases deriveCallInserts_shape db p.1.node c e hce with ⟨hshape, _⟩
    have hfile : p.1.file_id = file_id := of_decide_eq_true hpf
    have hid : e.id = Ident.DeriveCall c.1 c.2.1 c.2.2 := congrArg Entry.id hshape
    rw [hid]
    exact (hcon.2 p hpc c hc).trans hfile

theorem traitInserts_file (db : DefDatabase) (t : Nat) (file_id : HirFileId)
    (hcon : AttrCallsConsistent db (db.traitData t).attributeCalls) (e : Entry)
    (he : e ∈ traitInserts db t file_id) :
    (db.lookup e.id).file_id = file_id := by
  dsimp only [traitInserts] at he
  rcases List.mem_append.mp he with he | he
  · exact attrCallInserts_file db _ file_id hcon e he
  · rcases List.mem_flatMap.mp he with ⟨p, _, hie⟩
    exact assocItemInserts_file db file_id p.2 e hie

theorem implInserts_file (db : DefDatabase) (i : Nat) (file_id : HirFileId)
    (hcon : AttrCallsConsistent db (db.implData i).attributeCalls) (e : Entry)
    (he : e ∈ implInserts db i file_id) :
    (db.lookup e.id).file_id = file_id := by
  dsimp only [implInserts] at he
  rcases List.mem_append.mp he with he | he
  · exact attrCallInserts_file db _ file_id hcon e he
  · rcases List.mem_flatMap.mp he with ⟨item, _, hie⟩
    exact assocItemInserts_file db file_id item e hie

theorem enumInserts_file (db : DefDatabase) (en : Nat) (file_id : HirFileId)
    (hcon : ∀ v ∈ db.enumData en,
      (db.lookup (Ident.EnumVariantId v)).file_id = (db.lookup (Ident.EnumId en)).file_id)
    (e : Entry) (he : e ∈ enumInserts db en file_id) :
    (db.lookup e.id).file_id = file_id := by
  dsimp only [enumInserts] at he
  split at he
  · cases he
  case isFalse hne =>
    have hfe : file_id = (db.lookup (Ident.EnumId en)).file_id := not_ne_iff.mp hne
    rcases List.mem_flatMap.mp he with ⟨v, hv, hve⟩
    rcases List.mem_singleton.mp hve with rfl
    exact (hcon v hv).trans hfe.symm

/-- Every entry of the insertion program of a file-filtering container is
located in the requested file. -/
theorem containerInserts_file (db : DefDatabase) (c : Container) (file_id : HirFileId)
    (hcon : ContainerConsistent db c) (hf : c.filtersByFile = true) (e : Entry)
    (he : e ∈ containerInserts db c file_id) :
    (db.lookup e.id).file_id = file_id := by
  cases c with
  | trait t => exact traitInserts_file db t file_id hcon e he
  | impl i => exact implInserts_file db i file_id hcon e he
  | module m => exact scopeInserts_file db (db.moduleScope m) file_id hcon e he
  | scope s => exact scopeInserts_file db s file_id hcon e he
  | variant v => cases hf
  | enum en => exact enumInserts_file db en file_id hcon e he
  | body b =>
    cases b with
    | VariantId v => cases hf
    | FunctionId f =>
      dsimp only [containerInserts, bodyInserts] at he
      rw [List.nil_append] at he
      rcases List.mem_flatMap.mp he with ⟨scope, hs, hse⟩
      exact scopeInserts_file db scope file_id (hcon scope hs) e hse
    | StaticId st =>
      dsimp only [containerInserts, bodyInserts] at he
      rw [List.nil_append] at he
      rcases List.mem_flatMap.mp he with ⟨scope, hs, hse⟩
      exact scopeInserts_file db scope file_id (hcon scope hs) e hse
    | ConstId k =>
      dsimp only [containerInserts, bodyInserts] at he
      rw [List.nil_append] at he
      rcases List.mem_flatMap.mp he with ⟨scope, hs, hse⟩
      exact scopeInserts_file db scope file_id (hcon scope hs) e hse

/-- Every entry of a populated index of a file-filtering container is located
in the requested file. -/
theorem mem_cbs_file (db : DefDatabase) (c : Container) (file_id : HirFileId)
    (hcon : ContainerConsistent db c) (hf : c.filtersByFile = true) (e : Entry)
    (he : e ∈ child_by_source db c file_id) :
    (db.lookup e.id).file_id = file_id := by
  rw [cbs_eq] at he
  rcases mem_applyInserts _ _ _ he with h | h
  · exact containerInserts_file db c file_id hcon hf e h
  · cases h

theorem ite_sublist {c : Prop} [Decidable c] (l : List Entry) :
    List.Sublist (if c then l else []) l := by
  split
  · exact List.Sublist.refl l
  · exact List.nil_sublist l

theorem flatMap_sublist_of_forall {α : Type} (l : List α) (f g : α → List Entry)
    (h : ∀ a ∈ l, List.Sublist (f a) (g a)) :
    List.Sublist (l.flatMap f) (l.flatMap g) := by
  induction l with
  | nil => simp
  | cons b t ih =>
    simp only [List.flatMap_cons]
    exact (h b (List.mem_cons_self b t)).append
      (ih fun a ha => h a (List.mem_cons_of_mem _ ha))

theorem flatMap_sublist_of_sublist {α : Type} (l₁ l₂ : List α) (g : α → List Entry)
    (h : List.Sublist l₁ l₂) :
    List.Sublist (l₁.flatMap g) (l₂.flatMap g) := by
  induction h with
  | slnil => exact List.Sublist.refl _
  | cons a h ih =>
    simp only [List.flatMap_cons]
    exact ih.trans (List.sublist_append_right _ _)
  | cons₂ a h ih =>
    simp only [List.flatMap_cons]
    exact (List.Sublist.refl _).append ih

theorem sublist_flatMap_of_mem {α : Type} (a : α) (l : List α) (g : α → List Entry)
    (h : a ∈ l) :
    List.Sublist (g a) (l.flatMap g) := by
  induction l with
  | nil => cases h
  | cons b t ih =>
    simp only [List.flatMap_cons]
    rcases List.mem_cons.mp h with rfl | h'
    · exact List.sublist_append_left _ _
    · exact (ih h').trans (List.sublist_append_right _ _)

/-- Defining file of an associated item, per its recorded location. -/
def assocItemFile (db : DefDatabase) : AssocItemId → HirFileId
  | AssocItemId.FunctionId f => (db.lookup (Ident.FunctionId f)).file_id
  | AssocItemId.ConstId k => (db.lookup (Ident.ConstId k)).file_id
  | AssocItemId.TypeAliasId t => (db.lookup (Ident.TypeAliasId t)).file_id

/-- Entry an associated item contributes in its own defining file. -/
def assocItemEntry (db : DefDatabase) : AssocItemId → List Entry
  | AssocItemId.FunctionId f =>
    [⟨Key.FUNCTION, (db.lookup (Ident.FunctionId f)).node, Ident.FunctionId f⟩]
  | AssocItemId.ConstId k =>
    [⟨Key.CONST, (db.lookup (Ident.ConstId k)).node, Ident.ConstId k⟩]
  | AssocItemId.TypeAliasId t =>
    [⟨Key.TYPE_ALIAS, (db.lookup (Ident.TypeAliasId t)).node, Ident.TypeAliasId t⟩]

theorem assocItemInserts_eq (db : DefDatabase) (file_id : HirFileId) (item : AssocItemId) :
    assocItemInserts db file_id item =
      if assocItemFile db item = file_id then assocItemEntry db item else [] := by
  cases item <;> rfl

/-- Defining file of a declaration that the module policy emits; `none` for the
skipped kinds (nested modules, sum-type variants, builtin types). -/
def moduleDefFileOpt (db : DefDatabase) : ModuleDefId → Option HirFileId
  | ModuleDefId.FunctionId id => some (db.lookup (Ident.FunctionId id)).file_id
  | ModuleDefId.ConstId id => some (db.lookup (Ident.ConstId id)).file_id
  | ModuleDefId.StaticId id => some (db.lookup (Ident.StaticId id)).file_id
  | ModuleDefId.TypeAliasId id => some (db.lookup (Ident.TypeAliasId id)).file_id
  | ModuleDefId.TraitId id => some (db.lookup (Ident.TraitId id)).file_id
  | ModuleDefId.TraitAliasId id => some (db.lookup (Ident.TraitAliasId id)).file_id
  | ModuleDefId.AdtId (AdtId.StructId id) => some (db.lookup (Ident.StructId id)).file_id
  | ModuleDefId.AdtId (AdtId.UnionId id) => some (db.lookup (Ident.UnionId id)).file_id
  | ModuleDefId.AdtId (AdtId.EnumId id) => some (db.lookup (Ident.EnumId id)).file_id
  | ModuleDefId.MacroId (MacroId.Macro2Id id) => some (db.lookup (Ident.Macro2Id id)).file_id
  | ModuleDefId.MacroId (MacroId.MacroRulesId id) =>
    some (db.lookup (Ident.MacroRulesId id)).file_id
  | ModuleDefId.MacroId (MacroId.ProcMacroId id) => some (db.lookup (Ident.ProcMacroId id)).file_id
  | ModuleDefId.ModuleId _ => none
  | ModuleDefId.EnumVariantId _ => none
  | ModuleDefId.BuiltinType _ => none

/-- Entry a declaration contributes in its own defining file; empty for the
skipped kinds. -/
def moduleDefEntry (db : DefDatabase) : ModuleDefId → List Entry
  | ModuleDefId.FunctionId id =>
    [⟨Key.FUNCTION, (db.lookup (Ident.FunctionId id)).node, Ident.FunctionId id⟩]
  | ModuleDefId.ConstId id =>
    [⟨Key.CONST, (db.lookup (Ident.ConstId id)).node, Ident.ConstId id⟩]
  | ModuleDefId.StaticId id =>
    [⟨Key.STATIC, (db.lookup (Ident.StaticId id)).node, Ident.StaticId id⟩]
  | ModuleDefId.TypeAliasId id =>
    [⟨Key.TYPE_ALIAS, (db.lookup (Ident.TypeAliasId id)).node, Ident.TypeAliasId id⟩]
  | ModuleDefId.TraitId id =>
    [⟨Key.TRAIT, (db.lookup (Ident.TraitId id)).node, Ident.TraitId id⟩]
  | ModuleDefId.TraitAliasId id =>
    [⟨Key.TRAIT_ALIAS, (db.lookup (Ident.TraitAliasId id)).node, Ident.TraitAliasId id⟩]
  | ModuleDefId.AdtId (AdtId.StructId id) =>
    [⟨Key.STRUCT, (db.lookup (Ident.StructId id)).node, Ident.StructId id⟩]
  | ModuleDefId.AdtId (AdtId.UnionId id) =>
    [⟨Key.UNION, (db.lookup (Ident.UnionId id)).node, Ident.UnionId id⟩]
  | ModuleDefId.AdtId (AdtId.EnumId id) =>
    [⟨Key.ENUM, (db.lookup (Ident.EnumId id)).node, Ident.EnumId id⟩]
  | ModuleDefId.MacroId (MacroId.Macro2Id id) =>
    [⟨Key.MACRO2, (db.lookup (Ident.Macro2Id id)).node, Ident.Macro2Id id⟩]
  | ModuleDefId.MacroId (MacroId.MacroRulesId id) =>
    [⟨Key.MACRO_RULES, (db.lookup (Ident.MacroRulesId id)).node, Ident.MacroRulesId id⟩]
  | ModuleDefId.MacroId (MacroId.ProcMacroId id) =>
    [⟨Key.PROC_MACRO, (db.lookup (Ident.ProcMacroId id)).node, Ident.ProcMacroId id⟩]
  | ModuleDefId.ModuleId _ => []
  | ModuleDefId.EnumVariantId _ => []
  | ModuleDefId.BuiltinType _ => []

theorem moduleDefInserts_sublist (db : DefDatabase) (file_id : HirFileId)
    (item : ModuleDefId) :
    List.Sublist (moduleDefInserts db file_id item) (moduleDefEntry db item) := by
  cases item
  case AdtId adt => cases adt <;> exact ite_sublist _
  case MacroId m => cases m <;> exact ite_sublist _
  case ModuleId id => exact List.Sublist.refl _
  case EnumVariantId id => exact List.Sublist.refl _
  case BuiltinType id => exact List.Sublist.refl _
  all_goals exact ite_sublist _

theorem moduleDefInserts_of_mem_entry (db : DefDatabase) (item : ModuleDefId) (e : Entry)
    (he : e ∈ moduleDefEntry db item) :
    ∃ F, e ∈ moduleDefInserts db F item := by
  cases item
  case AdtId adt =>
    cases adt <;>
      exact ⟨_, by dsimp only [moduleDefInserts]; rw [if_pos rfl]; exact he⟩
  case MacroId m =>
    cases m <;>
      exact ⟨_, by dsimp only [moduleDefInserts]; rw [if_pos rfl]; exact he⟩
  case ModuleId id => cases he
  case EnumVariantId id => cases he
  case BuiltinType id => cases he
  all_goals exact ⟨_, by dsimp only [moduleDefInserts]; rw [if_pos rfl]; exact he⟩

theorem moduleDefInserts_eq_nil (db : DefDatabase) (file_id : HirFileId) (item : ModuleDefId)
    (h : moduleDefFileOpt db item ≠ some file_id) :
    moduleDefInserts db file_id item = [] := by
  cases item
  case AdtId adt =>
    cases adt <;>
      (dsimp only [moduleDefInserts]; rw [if_neg (fun hc => h (by dsimp only [moduleDefFileOpt]; rw [hc]))])
  case MacroId m =>
    cases m <;>
      (dsimp only [moduleDefInserts]; rw [if_neg (fun hc => h (by dsimp only [moduleDefFileOpt]; rw [hc]))])
  case ModuleId id => rfl
  case EnumVariantId id => rfl
  case BuiltinType id => rfl
  all_goals
    (dsimp only [moduleDefInserts]; rw [if_neg (fun hc => h (by dsimp only [moduleDefFileOpt]; rw [hc]))])

/-- Unfiltered entries of a list of recorded invocation sites. -/
def attrCallEntries (calls : List (AstId × Nat)) : List Entry :=
  calls.flatMap fun p => [⟨Key.ATTR_MACRO_CALL, p.1.node, Ident.MacroCallId p.2⟩]

theorem attrCallInserts_sublist (calls : List (AstId × Nat)) (file_id : HirFileId) :
    List.Sublist (attrCallInserts calls file_id) (attrCallEntries calls) :=
  flatMap_sublist_of_sublist _ _ _ (List.filter_sublist calls)

theorem attrCallInserts_of_mem_entry (calls : List (AstId × Nat)) (e : Entry)
    (he : e ∈ attrCallEntries calls) :
    ∃ F, e ∈ attrCallInserts calls F := by
  rcases List.mem_flatMap.mp he with ⟨p, hp, hpe⟩
  refine ⟨p.1.file_id, ?_⟩
  refine List.mem_flatMap.mpr ⟨p, List.mem_filter.mpr ⟨hp, by simp⟩, hpe⟩

/-- Entry a legacy textual-macro resolution target contributes in its own
defining file: only a `MacroRulesId` target contributes at all. -/
def legacyIdEntry (db : DefDatabase) : MacroId → List Entry
  | MacroId.MacroRulesId mid =>
    [⟨Key.MACRO_RULES, (db.lookup (Ident.MacroRulesId mid)).node, Ident.MacroRulesId mid⟩]
  | _ => []

theorem legacyIdInserts_sublist (db : DefDatabase) (file_id : HirFileId) (id : MacroId) :
    List.Sublist (legacyIdInserts db file_id id) (legacyIdEntry db id) := by
  cases id
  case MacroRulesId mid => exact ite_sublist _
  all_goals exact List.Sublist.refl _

theorem legacyIdInserts_of_mem_entry (db : DefDatabase) (id : MacroId) (e : Entry)
    (he : e ∈ legacyIdEntry db id) :
    ∃ F, e ∈ legacyIdInserts db F id := by
  cases id
  case MacroRulesId mid =>
    exact ⟨_, by dsimp only [legacyIdInserts]; rw [if_pos rfl]; exact he⟩
  all_goals cases he

/-- Full child-entry set of a container: the union over all file identities of
the entries its traversal can emit.  Derive invocations contribute only when
their recorded slot resolves to a genuine attribute, and the skipped
declaration kinds contribute nothing, matching the traversal. -/
def scopeChildEntries (db : DefDatabase) (s : ItemScope) : List Entry :=
  s.declarations.flatMap (moduleDefEntry db) ++
    s.impls.flatMap (fun imp =>
      [⟨Key.IMPL, (db.lookup (Ident.ImplId imp)).node, Ident.ImplId imp⟩]) ++
    s.externCrateDecls.flatMap (fun ext =>
      [⟨Key.EXTERN_CRATE, (db.lookup (Ident.ExternCrateId ext)).node, Ident.ExternCrateId ext⟩]) ++
    s.useDecls.flatMap (fun ext =>
      [⟨Key.USE, (db.lookup (Ident.UseId ext)).node, Ident.UseId ext⟩]) ++
    s.unnamedConsts.flatMap (fun konst =>
      [⟨Key.CONST, (db.lookup (Ident.ConstId konst)).node, Ident.ConstId konst⟩]) ++
    attrCallEntries s.attrMacroInvocs ++
    (s.legacyMacros.flatMap fun p => p.2.flatMap (legacyIdEntry db)) ++
    (s.deriveMacroInvocs.flatMap fun p => p.2.flatMap (deriveCallInserts db p.1.node))

/-- Full child-entry set of each container kind. -/
def childEntriesOf (db : DefDatabase) : Container → List Entry
  | Container.trait t =>
    attrCallEntries (db.traitData t).attributeCalls ++
      (db.traitData t).items.flatMap fun p => assocItemEntry db p.2
  | Container.impl i =>
    attrCallEntries (db.implData i).attributeCalls ++
      (db.implData i).items.flatMap fun item => assocItemEntry db item
  | Container.module m => scopeChildEntries db (db.moduleScope m)
  | Container.scope s => scopeChildEntries db s
  | Container.variant v => variantInserts db v
  | Container.enum e =>
    (db.enumData e).flatMap fun v =>
      [⟨Key.ENUM_VARIANT, db.variantNode v, Ident.EnumVariantId v⟩]
  | Container.body b =>
    (match b with
     | DefWithBodyId.VariantId v => variantInserts db (VariantId.EnumVariantId v)
     | _ => []) ++
      (db.bodyBlockScopes b).flatMap fun s => scopeChildEntries db s

theorem scopeInserts_sublist (db : DefDatabase) (s : ItemScope) (file_id : HirFileId) :
    List.Sublist (scopeInserts db s file_id) (scopeChildEntries db s) := by
  dsimp only [scopeInserts, scopeChildEntries]
  refine List.Sublist.append (List.Sublist.append (List.Sublist.append (List.Sublist.append
    (List.Sublist.append (List.Sublist.append (List.Sublist.append
      ?_ ?_) ?_) ?_) ?_) ?_) ?_) ?_
  · exact flatMap_sublist_of_forall _ _ _ fun item _ => moduleDefInserts_sublist db file_id item
  · exact flatMap_sublist_of_forall _ _ _ fun imp _ => by
      dsimp only [addImplInserts]; exact ite_sublist _
  · exact flatMap_sublist_of_forall _ _ _ fun ext _ => by
      dsimp only [addExternCrateInserts]; exact ite_sublist _
  · exact flatMap_sublist_of_forall _ _ _ fun ext _ => by
      dsimp only [addUseInserts]; exact ite_sublist _
  · exact flatMap_sublist_of_forall _ _ _ fun konst _ => by
      dsimp only [unnamedConstInserts]; exact ite_sublist _
  · exact attrCallInserts_sublist _ _
  · exact flatMap_sublist_of_forall _ _ _ fun p _ =>
      flatMap_sublist_of_forall _ _ _ fun id _ => legacyIdInserts_sublist db file_id id
  · exact flatMap_sublist_of_sublist _ _ _ (List.filter_sublist _)

/-- Every insertion program is a sublist of the container's full child-entry
set, for any requested file identity. -/
theorem containerInserts_sublist (db : DefDatabase) (c : Container) (file_id : HirFileId) :
    List.Sublist (containerInserts db c file_id) (childEntriesOf db c) := by
  cases c with
  | trait t =>
    exact (attrCallInserts_sublist _ _).append
      (flatMap_sublist_of_forall _ _ _ fun p _ => by
        rw [assocItemInserts_eq]; exact ite_sublist _)
  | impl i =>
    exact (attrCallInserts_sublist _ _).append
      (flatMap_sublist_of_forall _ _ _ fun item _ => by
        rw [assocItemInserts_eq]; exact ite_sublist _)
  | module m => exact scopeInserts_sublist db (db.moduleScope m) file_id
  | scope s => exact scopeInserts_sublist db s file_id
  | variant v => exact List.Sublist.refl _
  | enum e =>
    dsimp only [containerInserts, enumInserts, childEntriesOf]
    split
    · exact List.nil_sublist _
    · exact List.Sublist.refl _
  | body b =>
    dsimp only [containerInserts, bodyInserts, childEntriesOf]
    refine List.Sublist.append (List.Sublist.refl _)
      (flatMap_sublist_of_forall _ _ _ fun s _ => scopeInserts_sublist db s file_id)

theorem scopeChildEntries_exists (db : DefDatabase) (s : ItemScope) (e : Entry)
    (he : e ∈ scopeChildEntries db s) :
    ∃ F, e ∈ scopeInserts db s F := by
  dsimp only [scopeChildEntries] at he
  simp only [List.append_assoc, List.mem_append] at he
  have stage : ∀ (F : HirFileId),
      (e ∈ s.declarations.flatMap (moduleDefInserts db F) ∨
        e ∈ s.impls.flatMap (addImplInserts db F) ∨
        e ∈ s.externCrateDecls.flatMap (addExternCrateInserts db F) ∨
        e ∈ s.useDecls.flatMap (addUseInserts db F) ∨
        e ∈ s.unnamedConsts.flatMap (unnamedConstInserts db F) ∨
        e ∈ attrCallInserts s.attrMacroInvocs F ∨
        e ∈ (s.legacyMacros.flatMap fun p => p.2.flatMap (legacyIdInserts db F)) ∨
        e ∈ ((s.deriveMacroInvocs.filter fun p => decide (p.1.file_id = F)).flatMap fun p =>
          p.2.flatMap (deriveCallInserts db p.1.node))) →
      e ∈ scopeInserts db s F := by
    intro F h
    dsimp only [scopeInserts]
    simp only [List.append_assoc, List.mem_append]
    exact h
  rcases he with he | he | he | he | he | he | he | he
  · rcases List.mem_flatMap.mp he with ⟨item, hi, hie⟩
    rcases moduleDefInserts_of_mem_entry db item e hie with ⟨F, hF⟩
    exact ⟨F, stage F (Or.inl (List.mem_flatMap.mpr ⟨item, hi, hF⟩))⟩
  · rcases List.mem_flatMap.mp he with ⟨imp, hi, hie⟩
    refine ⟨(db.lookup (Ident.ImplId imp)).file_id, stage _ (Or.inr (Or.inl
      (List.mem_flatMap.mpr ⟨imp, hi, ?_⟩)))⟩
    dsimp only [addImplInserts]; rw [if_pos rfl]; exact hie
  · rcases List.mem_flatMap.mp he with ⟨ext, hi, hie⟩
    refine ⟨(db.lookup (Ident.ExternCrateId ext)).file_id, stage _ (Or.inr (Or.inr (Or.inl
      (List.mem_flatMap.mpr ⟨ext, hi, ?_⟩))))⟩
    dsimp only [addExternCrateInserts]; rw [if_pos rfl]; exact hie
  · rcases List.mem_flatMap.mp he with ⟨ext, hi, hie⟩
    refine ⟨(db.lookup (Ident.UseId ext)).file_id, stage _ (Or.inr (Or.inr (Or.inr (Or.inl
      (List.mem_flatMap.mpr ⟨ext, hi, ?_⟩)))))⟩
    dsimp only [addUseInserts]; rw [if_pos rfl]; exact hie
  · rcases List.mem_flatMap.mp he with ⟨konst, hi, hie⟩
    refine ⟨(db.lookup (Ident.ConstId konst)).file_id, stage _ (Or.inr (Or.inr (Or.inr (Or.inr
      (Or.inl (List.mem_flatMap.mpr ⟨konst, hi, ?_⟩))))))⟩
    dsimp only [unnamedConstInserts]; rw [if_pos rfl]; exact hie
  · rcases attrCallInserts_of_mem_entry s.attrMacroInvocs e he with ⟨F, hF⟩
    exact ⟨F, stage F (Or.inr (Or.inr (Or.inr (Or.inr (Or.inr (Or.inl hF))))))⟩
  · rcases List.mem_flatMap.mp he with ⟨p, hp, hie⟩
    rcases List.mem_flatMap.mp hie with ⟨id, hi, hie'⟩
    rcases legacyIdInserts_of_mem_entry db id e hie' with ⟨F, hF⟩
    exact ⟨F, stage F (Or.inr (Or.inr (Or.inr (Or.inr (Or.inr (Or.inr (Or.inl
      (List.mem_flatMap.mpr ⟨p, hp, List.mem_flatMap.mpr ⟨id, hi, hF⟩⟩))))))))⟩
  · rcases List.mem_flatMap.mp he with ⟨p, hp, hie⟩
    refine ⟨p.1.file_id, stage _ (Or.inr (Or.inr (Or.inr (Or.inr (Or.inr (Or.inr (Or.inr
      (List.mem_flatMap.mpr ⟨p, List.mem_filter.mpr ⟨hp, by simp⟩, hie⟩))))))))⟩

theorem containerEntries_exists (db : DefDatabase) (c : Container) (e : Entry)
    (he : e ∈ childEntriesOf db c) :
    ∃ F, e ∈ containerInserts db c F := by
  cases c with
  | trait t =>
    dsimp only [childEntriesOf] at he
    rcases List.mem_append.mp he with he | he
    · rcases attrCallInserts_of_mem_entry _ e he with ⟨F, hF⟩
      exact ⟨F, List.mem_append.mpr (Or.inl hF)⟩
    · rcases List.mem_flatMap.mp he with ⟨p, hp, hie⟩
      refine ⟨assocItemFile db p.2, List.mem_append.mpr (Or.inr
        (List.mem_flatMap.mpr ⟨p, hp, ?_⟩))⟩
      rw [assocItemInserts_eq, if_pos rfl]; exact hie
  | impl i =>
    dsimp only [childEntriesOf] at he
    rcases List.mem_append.mp he with he | he
    · rcases attrCallInserts_of_mem_entry _ e he with ⟨F, hF⟩
      exact ⟨F, List.mem_append.mpr (Or.inl hF)⟩
    · rcases List.mem_flatMap.mp he with ⟨item, hp, hie⟩
      refine ⟨assocItemFile db item, List.mem_append.mpr (Or.inr
        (List.mem_flatMap.mpr ⟨item, hp, ?_⟩))⟩
      rw [assocItemInserts_eq, if_pos rfl]; exact hie
  | module m => exact scopeChildEntries_exists db (db.moduleScope m) e he
  | scope s => exact scopeChildEntries_exists db s e he
  | variant v => exact ⟨0, he⟩
  | enum en =>
    refine ⟨(db.lookup (Ident.EnumId en)).file_id, ?_⟩
    dsimp only [containerInserts, enumInserts]
    rw [if_neg (fun hne => hne rfl)]
    exact he
  | body b =>
    dsimp only [childEntriesOf] at he
    rcases List.mem_append.mp he with he | he
    · exact ⟨0, List.mem_append.mpr (Or.inl he)⟩
    · rcases List.mem_flatMap.mp he with ⟨s, hs, hse⟩
      rcases scopeChildEntries_exists db s e hse with ⟨F, hF⟩
      exact ⟨F, List.mem_append.mpr (Or.inr (List.mem_flatMap.mpr ⟨s, hs, hF⟩))⟩

/-- Union over all file identities of the populated indices is exactly the
container's full child-entry set, provided no two child entries collide on the
same (key, node) coordinate. -/
theorem union_eq_childEntries (db : DefDatabase) (c : Container)
    (hU : ((childEntriesOf db c).map entryKey).Nodup) (e : Entry) :
    (∃ F, e ∈ child_by_source db c F) ↔ e ∈ childEntriesOf db c := by
  constructor
  · rintro ⟨F, hF⟩
    rw [cbs_eq] at hF
    rcases mem_applyInserts _ _ _ hF with h | h
    · exact (containerInserts_sublist db c F).subset h
    · cases h
  · intro h
    rcases containerEntries_exists db c e h with ⟨F, hF⟩
    refine ⟨F, ?_⟩
    rw [cbs_eq,
      mem_applyInserts_iff _ (hU.sublist ((containerInserts_sublist db c F).map entryKey))]
    exact hF

theorem mem_enumSlots {α : Type} (l : List α) :
    ∀ (i j : Nat) (a : α), (j, a) ∈ enumSlots i l ↔ ∃ k, j = i + k ∧ l.get? k = some a := by
  induction l with
  | nil => intro i j a; simp [enumSlots]
  | cons b t ih =>
    intro i j a
    simp only [enumSlots, List.mem_cons, ih (i + 1), Prod.mk.injEq]
    constructor
    · rintro (⟨rfl, rfl⟩ | ⟨k, rfl, hk2⟩)
      · exact ⟨0, by omega, rfl⟩
      · exact ⟨k + 1, by omega, by simpa using hk2⟩
    · rintro ⟨k, rfl, hk2⟩
      cases k with
      | zero =>
        refine Or.inl ⟨by omega, ?_⟩
        simpa using hk2.symm
      | succ k => exact Or.inr ⟨k, by omega, by simpa using hk2⟩

theorem length_enumSlots {α : Type} (l : List α) : ∀ i, (enumSlots i l).length = l.length := by
  induction l with
  | nil => intro i; rfl
  | cons b t ih => intro i; simp [enumSlots, ih]

/-- Entry emitted for one arena slot: the slot's source node under the
category of the form the slot carries, identified by (parent, index). -/
def fieldEntry (v : VariantId) (p : Nat × Sum SyntaxNode SyntaxNode) : Entry :=
  match p.2 with
  | Sum.inl source => ⟨Key.TUPLE_FIELD, source, Ident.FieldIdent ⟨v, p.1⟩⟩
  | Sum.inr source => ⟨Key.RECORD_FIELD, source, Ident.FieldIdent ⟨v, p.1⟩⟩

theorem variantInserts_eq_map (db : DefDatabase) (v : VariantId) :
    variantInserts db v =
      (enumSlots 0 (db.variantChildSource v).fields).map (fieldEntry v) := by
  dsimp only [variantInserts]
  generalize enumSlots 0 (db.variantChildSource v).fields = l
  induction l with
  | nil => rfl
  | cons p t ih =>
    simp only [List.flatMap_cons, List.map_cons, ← ih]
    rcases p with ⟨i, src⟩
    cases src <;> rfl

/-- Identifier shapes that the module policy can never emit. -/
abbrev NotSkippedIdent (e : Entry) : Prop :=
  (∀ n, e.id ≠ Ident.ModuleIdent n) ∧ (∀ n, e.id ≠ Ident.EnumVariantId n) ∧
    (∀ n, e.id ≠ Ident.BuiltinTypeIdent n)

theorem moduleDefEntry_shape (db : DefDatabase) (item : ModuleDefId) (e : Entry)
    (he : e ∈ moduleDefEntry db item) :
    e.key ≠ Key.DERIVE_MACRO_CALL ∧ NotSkippedIdent e := by
  cases item
  case AdtId adt =>
    cases adt <;> rcases List.mem_singleton.mp he with rfl <;>
      exact ⟨fun hk => Key.noConfusion hk, ⟨fun n h => Ident.noConfusion h,
        ⟨fun n h => Ident.noConfusion h, fun n h => Ident.noConfusion h⟩⟩⟩
  case MacroId m =>
    cases m <;> rcases List.mem_singleton.mp he with rfl <;>
      exact ⟨fun hk => Key.noConfusion hk, ⟨fun n h => Ident.noConfusion h,
        ⟨fun n h => Ident.noConfusion h, fun n h => Ident.noConfusion h⟩⟩⟩
  case ModuleId id => cases he
  case EnumVariantId id => cases he
  case BuiltinType id => cases he
  all_goals rcases List.mem_singleton.mp he with rfl
  all_goals
    exact ⟨fun hk => Key.noConfusion hk, ⟨fun n h => Ident.noConfusion h,
        ⟨fun n h => Ident.noConfusion h, fun n h => Ident.noConfusion h⟩⟩⟩

/-- Shape of every entry the module/item-scope policy emits: a derive entry
records a genuine attribute found at the stored index of a matching-file
invocation, and no emitted identifier is a nested module, sum-type variant or
builtin type. -/
theorem scopeInserts_shape (db : DefDatabase) (s : ItemScope) (file_id : HirFileId) (e : Entry)
    (he : e ∈ scopeInserts db s file_id) :
    (e.key = Key.DERIVE_MACRO_CALL →
      ∃ p ∈ s.deriveMacroInvocs, p.1.file_id = file_id ∧
        ∃ c ∈ p.2, (db.collectAttrs p.1.node).get? c.1 = some (Sum.inl e.node) ∧
          e.id = Ident.DeriveCall c.1 c.2.1 c.2.2) ∧
    NotSkippedIdent e := by
  dsimp only [scopeInserts] at he
  simp only [List.append_assoc, List.mem_append] at he
  rcases he with he | he | he | he | he | he | he | he
  · rcases List.mem_flatMap.mp he with ⟨item, _, hie⟩
    have hie' := (moduleDefInserts_sublist db file_id item).subset hie
    rcases moduleDefEntry_shape db item e hie' with ⟨hk, hs⟩
    exact ⟨fun hc => absurd hc hk, hs⟩
  · rcases List.mem_flatMap.mp he with ⟨imp, _, hie⟩
    rcases mem_ite_singleton hie with ⟨_, rfl⟩
    exact ⟨fun hc => Key.noConfusion hc, ⟨fun n h => Ident.noConfusion h,
      ⟨fun n h => Ident.noConfusion h, fun n h => Ident.noConfusion h⟩⟩⟩
  · rcases List.mem_flatMap.mp he with ⟨ext, _, hie⟩
    rcases mem_ite_singleton hie with ⟨_, rfl⟩
    exact ⟨fun hc => Key.noConfusion hc, ⟨fun n h => Ident.noConfusion h,
      ⟨fun n h => Ident.noConfusion h, fun n h => Ident.noConfusion h⟩⟩⟩
  · rcases List.mem_flatMap.mp he with ⟨ext, _, hie⟩
    rcases mem_ite_singleton hie with ⟨_, rfl⟩
    exact ⟨fun hc => Key.noConfusion hc, ⟨fun n h => Ident.noConfusion h,
      ⟨fun n h => Ident.noConfusion h, fun n h => Ident.noConfusion h⟩⟩⟩
  · rcases List.mem_flatMap.mp he with ⟨konst, _, hie⟩
    rcases mem_ite_singleton hie with ⟨_, rfl⟩
    exact ⟨fun hc => Key.noConfusion hc, ⟨fun n h => Ident.noConfusion h,
      ⟨fun n h => Ident.noConfusion h, fun n h => Ident.noConfusion h⟩⟩⟩
  · rcases List.mem_flatMap.mp he with ⟨p, _, hie⟩
    rcases List.mem_singleton.mp hie with rfl
    exact ⟨fun hc => Key.noConfusion hc, ⟨fun n h => Ident.noConfusion h,
      ⟨fun n h => Ident.noConfusion h, fun n h => Ident.noConfusion h⟩⟩⟩
  · rcases List.mem_flatMap.mp he with ⟨p, _, hie⟩
    rcases List.mem_flatMap.mp hie with ⟨id, _, hie'⟩
    have hie'' := (legacyIdInserts_sublist db file_id id).subset hie'
    cases id
    case MacroRulesId mid =>
      rcases List.mem_singleton.mp hie'' with rfl
      exact ⟨fun hc => Key.noConfusion hc, ⟨fun n h => Ident.noConfusion h,
        ⟨fun n h => Ident.noConfusion h, fun n h => Ident.noConfusion h⟩⟩⟩
    all_goals cases hie''
  · rcases List.mem_flatMap.mp he with ⟨p, hp, hie⟩
    rcases List.mem_filter.mp hp with ⟨hpc, hpf⟩
    rcases List.mem_flatMap.mp hie with ⟨c, hc, hce⟩
    rcases deriveCallInserts_shape db p.1.node c e hce with ⟨hshape, hget⟩
    refine ⟨fun _ => ⟨p, hpc, of_decide_eq_true hpf, c, hc, hget, congrArg Entry.id hshape⟩, ?_⟩
    have hid : e.id = Ident.DeriveCall c.1 c.2.1 c.2.2 := congrArg Entry.id hshape
    refine ⟨fun n h => ?_, ⟨fun n h => ?_, fun n h => ?_⟩⟩ <;> rw [hid] at h <;>
      exact Ident.noConfusion h

/-- Membership in a populated index coincides with membership in its insertion
program when the program's coordinates are mutually distinct. -/
theorem mem_cbs_iff (db : DefDatabase) (c : Container) (file_id : HirFileId)
    (hnd : ((containerInserts db c file_id).map entryKey).Nodup) (e : Entry) :
    e ∈ child_by_source db c file_id ↔ e ∈ containerInserts db c file_id := by
  rw [cbs_eq]
  exact mem_applyInserts_iff _ hnd e

/-- Requested file owns none of an item scope's children: every child the
traversal could emit for this scope is recorded in a different file. -/
def ScopeOwnsNone (db : DefDatabase) (s : ItemScope) (file_id : HirFileId) : Prop :=
  (∀ item ∈ s.declarations, moduleDefFileOpt db item ≠ some file_id) ∧
    (∀ imp ∈ s.impls, (db.lookup (Ident.ImplId imp)).file_id ≠ file_id) ∧
    (∀ ext ∈ s.externCrateDecls, (db.lookup (Ident.ExternCrateId ext)).file_id ≠ file_id) ∧
    (∀ ext ∈ s.useDecls, (db.lookup (Ident.UseId ext)).file_id ≠ file_id) ∧
    (∀ konst ∈ s.unnamedConsts, (db.lookup (Ident.ConstId konst)).file_id ≠ file_id) ∧
    (∀ p ∈ s.attrMacroInvocs, p.1.file_id ≠ file_id) ∧
    (∀ p ∈ s.legacyMacros, ∀ id ∈ p.2, ∀ mid, id = MacroId.MacroRulesId mid →
      (db.lookup (Ident.MacroRulesId mid)).file_id ≠ file_id) ∧
    (∀ p ∈ s.deriveMacroInvocs, p.1.file_id ≠ file_id)

/-- Requested file owns none of the container's children. -/
def OwnsNone (db : DefDatabase) : Container → HirFileId → Prop
  | Container.trait t, file_id =>
    (∀ p ∈ (db.traitData t).attributeCalls, p.1.file_id ≠ file_id) ∧
      ∀ p ∈ (db.traitData t).items, assocItemFile db p.2 ≠ file_id
  | Container.impl i, file_id =>
    (∀ p ∈ (db.implData i).attributeCalls, p.1.file_id ≠ file_id) ∧
      ∀ item ∈ (db.implData i).items, assocItemFile db item ≠ file_id
  | Container.module m, file_id => ScopeOwnsNone db (db.moduleScope m) file_id
  | Container.scope s, file_id => ScopeOwnsNone db s file_id
  | Container.variant v, file_id =>
    (db.variantChildSource v).file_id ≠ file_id ∨ (db.variantChildSource v).fields = []
  | Container.enum e, file_id =>
    (db.lookup (Ident.EnumId e)).file_id ≠ file_id ∨ db.enumData e = []
  | Container.body b, file_id => ∀ s ∈ db.bodyBlockScopes b, ScopeOwnsNone db s file_id

theorem attrCallInserts_eq_nil (calls : List (AstId × Nat)) (file_id : HirFileId)
    (h : ∀ p ∈ calls, p.1.file_id ≠ file_id) :
    attrCallInserts calls file_id = [] := by
  dsimp only [attrCallInserts]
  rw [List.filter_eq_nil_iff.mpr fun p hp => by
    simp only [decide_eq_true_eq]
    exact h p hp]
  rfl

theorem scopeInserts_eq_nil (db : DefDatabase) (s : ItemScope) (file_id : HirFileId)
    (h : ScopeOwnsNone db s file_id) :
    scopeInserts db s file_id = [] := by
  obtain ⟨h1, h2, h3, h4, h5, h6, h7, h8⟩ := h
  dsimp only [scopeInserts]
  rw [List.flatMap_eq_nil_iff.mpr fun item hi =>
      moduleDefInserts_eq_nil db file_id item (h1 item hi)]
  rw [List.flatMap_eq_nil_iff.mpr fun imp hi => by
    dsimp only [addImplInserts]; rw [if_neg (h2 imp hi)]]
  rw [List.flatMap_eq_nil_iff.mpr fun ext hi => by
    dsimp only [addExternCrateInserts]; rw [if_neg (h3 ext hi)]]
  rw [List.flatMap_eq_nil_iff.mpr fun ext hi => by
    dsimp only [addUseInserts]; rw [if_neg (h4 ext hi)]]
  rw [List.flatMap_eq_nil_iff.mpr fun konst hi => by
    dsimp only [unnamedConstInserts]; rw [if_neg (h5 konst hi)]]
  rw [attrCallInserts_eq_nil s.attrMacroInvocs file_id h6]
  rw [List.flatMap_eq_nil_iff.mpr fun p hp =>
    List.flatMap_eq_nil_iff.mpr fun id hi => by
      cases id
      case MacroRulesId mid =>
        dsimp only [legacyIdInserts]; rw [if_neg (h7 p hp _ hi mid rfl)]
      all_goals rfl]
  rw [List.filter_eq_nil_iff.mpr fun p hp => by
    simp only [decide_eq_true_eq]
    exact h8 p hp]
  rfl

theorem containerInserts_eq_nil (db : DefDatabase) (c : Container) (file_id : HirFileId)
    (hf : c.filtersByFile = true) (hn : OwnsNone db c file_id) :
    containerInserts db c file_id = [] := by
  cases c with
  | trait t =>
    dsimp only [containerInserts, traitInserts]
    rw [attrCallInserts_eq_nil _ _ hn.1]
    rw [List.flatMap_eq_nil_iff.mpr fun p hp => by
      rw [assocItemInserts_eq, if_neg (hn.2 p hp)]]
    rfl
  | impl i =>
    dsimp only [containerInserts, implInserts]
    rw [attrCallInserts_eq_nil _ _ hn.1]
    rw [List.flatMap_eq_nil_iff.mpr fun item hi => by
      rw [assocItemInserts_eq, if_neg (hn.2 item hi)]]
    rfl
  | module m => exact scopeInserts_eq_nil db (db.moduleScope m) file_id hn
  | scope s => exact scopeInserts_eq_nil db s file_id hn
  | variant v => cases hf
  | enum en =>
    dsimp only [containerInserts, enumInserts]
    split
    · rfl
    case isFalse hne =>
      have heq : file_id = (db.lookup (Ident.EnumId en)).file_id := not_ne_iff.mp hne
      rcases hn with hn | hn
      · exact absurd heq.symm hn
      · rw [hn]; rfl
  | body b =>
    cases b with
    | VariantId v => cases hf
    | FunctionId f =>
      dsimp only [containerInserts, bodyInserts]
      rw [List.flatMap_eq_nil_iff.mpr fun s hs => scopeInserts_eq_nil db s file_id (hn s hs)]
      rfl
    | StaticId st =>
      dsimp only [containerInserts, bodyInserts]
      rw [List.flatMap_eq_nil_iff.mpr fun s hs => scopeInserts_eq_nil db s file_id (hn s hs)]
      rfl
    | ConstId k =>
      dsimp only [containerInserts, bodyInserts]
      rw [List.flatMap_eq_nil_iff.mpr fun s hs => scopeInserts_eq_nil db s file_id (hn s hs)]
      rfl

/-- Scope with no recorded children. -/
def emptyScope : ItemScope := ⟨[], [], [], [], [], [], [], []⟩

/-- Snapshot with a single sum-type variant whose field arena lives in file 0:
one record-form field slot whose source node is 10. -/
def exDb : DefDatabase :=
  ⟨fun i =>
    match i with
    | Ident.FieldIdent _ => ⟨0, 10⟩
    | _ => ⟨0, 0⟩,
   fun _ => ⟨[], []⟩,
   fun _ => ⟨[], []⟩,
   fun _ => emptyScope,
   fun _ => ⟨0, [Sum.inr 10]⟩,
   fun _ => [],
   fun _ => 0,
   fun _ => [],
   fun _ => []⟩

/-- Scope used by the witnesses: one function declaration among skipped
declaration kinds, one legacy binding with a declarative and a non-declarative
target, and one item carrying two recorded derive invocations of which the
second points at a non-attribute slot. -/
def wScope : ItemScope :=
  ⟨[ModuleDefId.FunctionId 5, ModuleDefId.ModuleId 9, ModuleDefId.EnumVariantId 2,
      ModuleDefId.BuiltinType 4],
   [], [], [], [], [],
   [(0, [MacroId.MacroRulesId 3, MacroId.Macro2Id 4])],
   [(⟨0, 20⟩, [(0, 50, []), (1, 51, [])])]⟩

/-- Snapshot used by the witnesses: everything is recorded in file 0; the item
node 20 re-collects to an attribute at slot 0 and a doc comment at slot 1. -/
def wDb : DefDatabase :=
  ⟨fun _ => ⟨0, 7⟩,
   fun _ => ⟨[], [(0, AssocItemId.FunctionId 5)]⟩,
   fun _ => ⟨[], []⟩,
   fun _ => wScope,
   fun _ => ⟨0, [Sum.inl 11, Sum.inr 12]⟩,
   fun _ => [3],
   fun _ => 9,
   fun _ => [wScope],
   fun n => if n = 20 then [Sum.inl 21, Sum.inr 22] else []⟩

/-- C1, counterexample: the claim fails as stated.  The field policy ignores
the requested file identity: requesting file 1 on a variant whose field arena
(and every recorded location) lives in file 0 still returns the field entry,
whose recorded location file is 0 ≠ 1 — even on a fully consistent
snapshot. -/
theorem C1_location_filter_counterexample :
    ContainerConsistent exDb (Container.variant (VariantId.EnumVariantId 0)) ∧
      ∃ e ∈ child_by_source exDb (Container.variant (VariantId.EnumVariantId 0)) 1,
        (exDb.lookup e.id).file_id ≠ 1 := by
  refine ⟨trivial,
    ⟨⟨Key.RECORD_FIELD, 10, Ident.FieldIdent ⟨VariantId.EnumVariantId 0, 0⟩⟩, ?_, ?_⟩⟩
  · decide
  · decide

/-- C1 (amended): for every container whose traversal filters by the requested
file — all kinds except the record/variant field policy and a sum-type
variant's body, which delegate to the file-blind field arena — every entry in
the returned Result Index is for an identifier whose recorded Location file
identity equals the requested file identity exactly (on a snapshot whose
recorded invocation/variant locations are consistent). -/
theorem C1_location_filter (db : DefDatabase) (c : Container) (file_id : HirFileId)
    (hcon : ContainerConsistent db c) (hf : c.filtersByFile = true) (e : Entry)
    (he : e ∈ child_by_source db c file_id) :
    (db.lookup e.id).file_id = file_id :=
  mem_cbs_file db c file_id hcon hf e he

/-- C1 witness: a trait with one function in file 0, requested at file 0. -/
theorem C1_location_filter_witness :
    (wDb.lookup (Ident.FunctionId 5)).file_id = 0 :=
  C1_location_filter wDb (Container.trait 0) 0
    (fun p hp => absurd hp (List.not_mem_nil p)) rfl
    ⟨Key.FUNCTION, 7, Ident.FunctionId 5⟩ (by decide)

/-- C2, counterexample: the claim fails as stated.  For a variant container
with a nonempty field arena the results for the two distinct file identities
0 and 1 share the field entry, so they are not disjoint. -/
theorem C2_partition_counterexample :
    (0 : HirFileId) ≠ 1 ∧
      ContainerConsistent exDb (Container.variant (VariantId.EnumVariantId 0)) ∧
      ∃ e : Entry,
        e ∈ child_by_source exDb (Container.variant (VariantId.EnumVariantId 0)) 0 ∧
          e ∈ child_by_source exDb (Container.variant (VariantId.EnumVariantId 0)) 1 := by
  refine ⟨by decide, trivial,
    ⟨⟨Key.RECORD_FIELD, 10, Ident.FieldIdent ⟨VariantId.EnumVariantId 0, 0⟩⟩, ?_, ?_⟩⟩
  · decide
  · decide

/-- C2 (amended): for every file-filtering container (on a consistent
snapshot) the indices for two distinct file identities are disjoint; the field
policy instead returns the same full field set for every requested identity;
and for every container the union of the results over all file identities is
exactly the container's full child-entry set, provided no two child entries
collide on one (key, node) coordinate. -/
theorem C2_per_file_partition (db : DefDatabase) :
    (∀ c : Container, c.filtersByFile = true → ContainerConsistent db c →
        ∀ F F2 : HirFileId, F ≠ F2 → ∀ e : Entry,
          e ∈ child_by_source db c F → e ∉ child_by_source db c F2) ∧
      (∀ v : VariantId, ∀ F F2 : HirFileId,
        child_by_source db (Container.variant v) F =
          child_by_source db (Container.variant v) F2) ∧
      ∀ c : Container, ((childEntriesOf db c).map entryKey).Nodup →
        ∀ e : Entry, (∃ F, e ∈ child_by_source db c F) ↔ e ∈ childEntriesOf db c := by
  refine ⟨?_, fun v F F2 => rfl, fun c hU e => union_eq_childEntries db c hU e⟩
  intro c hf hcon F F2 hne e heF heF2
  exact hne ((mem_cbs_file db c F hcon hf e heF).symm.trans
    (mem_cbs_file db c F2 hcon hf e heF2))

/-- C2 witness: on the witness snapshot, the trait's function entry for file 0
is absent from the file-1 index, the variant results for files 0 and 1
coincide, and the union over all files of the trait's indices is its child
set. -/
theorem C2_per_file_partition_witness :
    (⟨Key.FUNCTION, 7, Ident.FunctionId 5⟩ : Entry) ∉
        child_by_source wDb (Container.trait 0) 1 ∧
      child_by_source wDb (Container.variant (VariantId.EnumVariantId 0)) 0 =
        child_by_source wDb (Container.variant (VariantId.EnumVariantId 0)) 1 ∧
      ((∃ F, (⟨Key.FUNCTION, 7, Ident.FunctionId 5⟩ : Entry) ∈
          child_by_source wDb (Container.trait 0) F) ↔
        (⟨Key.FUNCTION, 7, Ident.FunctionId 5⟩ : Entry) ∈
          childEntriesOf wDb (Container.trait 0)) := by
  refine ⟨?_, ?_, ?_⟩
  · exact (C2_per_file_partition wDb).1 (Container.trait 0) rfl
      (fun p hp => absurd hp (List.not_mem_nil p)) 0 1 (by decide) _ (by decide)
  · exact (C2_per_file_partition wDb).2.1 (VariantId.EnumVariantId 0) 0 1
  · exact (C2_per_file_partition wDb).2.2 (Container.trait 0) (by decide) _

/-- C3: positional derive correlation over a module's item scope.  A mapping
for the slot-i attribute node of a matching-file invocation is present exactly
when re-collecting the item's attribute sequence yields a genuine attribute at
position i; an out-of-range or non-attribute slot contributes nothing (and the
traversal is total, so it completes without error). -/
theorem C3_derive_slot (db : DefDatabase) (s : ItemScope) (file_id : HirFileId)
    (hnd : ((scopeInserts db s file_id).map entryKey).Nodup) :
    (∀ p ∈ s.deriveMacroInvocs, p.1.file_id = file_id →
        ∀ c ∈ p.2, ∀ attr : SyntaxNode,
          (db.collectAttrs p.1.node).get? c.1 = some (Sum.inl attr) →
            (⟨Key.DERIVE_MACRO_CALL, attr, Ident.DeriveCall c.1 c.2.1 c.2.2⟩ : Entry) ∈
              child_by_source db (Container.scope s) file_id) ∧
      ∀ e ∈ child_by_source db (Container.scope s) file_id,
        e.key = Key.DERIVE_MACRO_CALL →
          ∃ p ∈ s.deriveMacroInvocs, p.1.file_id = file_id ∧
            ∃ c ∈ p.2, (db.collectAttrs p.1.node).get? c.1 = some (Sum.inl e.node) ∧
              e.id = Ident.DeriveCall c.1 c.2.1 c.2.2 := by
  constructor
  · intro p hp hpf c hc attr hattr
    rw [cbs_eq]
    dsimp only [containerInserts]
    rw [mem_applyInserts_iff _ hnd]
    dsimp only [scopeInserts]
    simp only [List.append_assoc, List.mem_append]
    refine Or.inr (Or.inr (Or.inr (Or.inr (Or.inr (Or.inr (Or.inr ?_))))))
    refine List.mem_flatMap.mpr ⟨p, List.mem_filter.mpr ⟨hp, decide_eq_true hpf⟩, ?_⟩
    refine List.mem_flatMap.mpr ⟨c, hc, ?_⟩
    dsimp only [deriveCallInserts]
    rw [hattr]
    exact List.mem_singleton.mpr rfl
  · intro e he hk
    rw [cbs_eq] at he
    rcases mem_applyInserts _ _ _ he with h | h
    · exact (scopeInserts_shape db s file_id e h).1 hk
    · cases h

/-- C3 witness: the slot-0 derive invocation on item node 20 is recorded at
the genuine attribute node 21, while the slot-1 invocation points at a doc
comment and is skipped. -/
theorem C3_derive_slot_witness :
    (⟨Key.DERIVE_MACRO_CALL, 21, Ident.DeriveCall 0 50 []⟩ : Entry) ∈
      child_by_source wDb (Container.scope wScope) 0 :=
  (C3_derive_slot wDb wScope 0 (by decide)).1 (⟨0, 20⟩, [(0, 50, []), (1, 51, [])])
    (by decide) rfl (0, 50, []) (by decide) 21 (by decide)

/-- C4: an executable body's index merges the variant's own field entries
(when the body belongs to a sum-type variant) with the module-scope results of
every nested block scope, all in one Result Index: membership in the body's
index is exactly membership in one of those parts. -/
theorem C4_body_merge (db : DefDatabase) (b : DefWithBodyId) (file_id : HirFileId)
    (hnd : ((bodyInserts db b file_id).map entryKey).Nodup) (e : Entry) :
    e ∈ child_by_source db (Container.body b) file_id ↔
      ((∃ v, b = DefWithBodyId.VariantId v ∧
          e ∈ child_by_source db (Container.variant (VariantId.EnumVariantId v)) file_id) ∨
        ∃ s ∈ db.bodyBlockScopes b,
          e ∈ child_by_source db (Container.scope s) file_id) := by
  have hnd' : ((containerInserts db (Container.body b) file_id).map entryKey).Nodup := hnd
  have hvar : ∀ v, b = DefWithBodyId.VariantId v →
      ((containerInserts db (Container.variant (VariantId.EnumVariantId v))
        file_id).map entryKey).Nodup := by
    intro v hv
    subst hv
    dsimp only [containerInserts]
    dsimp only [bodyInserts] at hnd
    exact hnd.sublist ((List.sublist_append_left _ _).map entryKey)
  have hscope : ∀ s ∈ db.bodyBlockScopes b,
      ((containerInserts db (Container.scope s) file_id).map entryKey).Nodup := by
    intro s hs
    dsimp only [containerInserts]
    dsimp only [bodyInserts] at hnd
    refine hnd.sublist (List.Sublist.map entryKey ?_)
    exact (sublist_flatMap_of_mem s (db.bodyBlockScopes b)
      (fun scope => scopeInserts db scope file_id) hs).trans
      (List.sublist_append_right _ _)
  rw [mem_cbs_iff db (Container.body b) file_id hnd' e]
  dsimp only [containerInserts, bodyInserts]
  rw [List.mem_append]
  constructor
  · rintro (h | h)
    · cases b with
      | VariantId v =>
        refine Or.inl ⟨v, rfl, ?_⟩
        rw [mem_cbs_iff db _ file_id (hvar v rfl) e]
        dsimp only [containerInserts]
        exact h
      | FunctionId f => cases h
      | StaticId st => cases h
      | ConstId k => cases h
    · rcases List.mem_flatMap.mp h with ⟨s, hs, hse⟩
      refine Or.inr ⟨s, hs, ?_⟩
      rw [mem_cbs_iff db _ file_id (hscope s hs) e]
      dsimp only [containerInserts]
      exact hse
  · rintro (⟨v, rfl, hv⟩ | ⟨s, hs, hse⟩)
    · refine Or.inl ?_
      rw [mem_cbs_iff db _ file_id (hvar v rfl) e] at hv
      dsimp only [containerInserts] at hv
      exact hv
    · refine Or.inr (List.mem_flatMap.mpr ⟨s, hs, ?_⟩)
      rw [mem_cbs_iff db _ file_id (hscope s hs) e] at hse
      dsimp only [containerInserts] at hse
      exact hse

/-- C4 witness: the local function declared in the body's nested block scope
is a member of the body's own index, merged rather than in a second index. -/
theorem C4_body_merge_witness :
    (⟨Key.FUNCTION, 7, Ident.FunctionId 5⟩ : Entry) ∈
      child_by_source wDb (Container.body (DefWithBodyId.FunctionId 0)) 0 :=
  (C4_body_merge wDb (DefWithBodyId.FunctionId 0) 0 (by decide)
      ⟨Key.FUNCTION, 7, Ident.FunctionId 5⟩).mpr
    (Or.inr ⟨wScope, by decide, by decide⟩)

/-- C5: the field policy emits exactly one entry per arena slot, for any
requested file identity (all requests yield the same index), each entry
carrying the identifier (parent container, local arena index) under the
tuple-field or record-field category according to the slot's form. -/
theorem C5_field_slots (db : DefDatabase) (v : VariantId) (file_id file_id2 : HirFileId)
    (hnd : ((variantInserts db v).map entryKey).Nodup) :
    child_by_source db (Container.variant v) file_id =
        child_by_source db (Container.variant v) file_id2 ∧
      (child_by_source db (Container.variant v) file_id).length =
        (db.variantChildSource v).fields.length ∧
      ∀ e : Entry, e ∈ child_by_source db (Container.variant v) file_id ↔
        ∃ i src, (db.variantChildSource v).fields.get? i = some src ∧
          e = fieldEntry v (i, src) := by
  refine ⟨rfl, ?_, ?_⟩
  · rw [cbs_eq]
    dsimp only [containerInserts]
    rw [length_applyInserts _ hnd, variantInserts_eq_map, List.length_map, length_enumSlots]
  · intro e
    rw [cbs_eq]
    dsimp only [containerInserts]
    rw [mem_applyInserts_iff _ hnd, variantInserts_eq_map, List.mem_map]
    constructor
    · rintro ⟨⟨i, src⟩, hmem, rfl⟩
      rcases (mem_enumSlots _ 0 i src).mp hmem with ⟨k, hik, hk⟩
      exact ⟨i, src, by rw [show i = k from by omega]; exact hk, rfl⟩
    · rintro ⟨i, src, hget, rfl⟩
      exact ⟨(i, src), (mem_enumSlots _ 0 i src).mpr ⟨i, by omega, hget⟩, rfl⟩

/-- C5 witness: a variant with one tuple-form and one record-form slot yields
exactly the two field entries, for any requested file. -/
theorem C5_field_slots_witness :
    (child_by_source wDb (Container.variant (VariantId.EnumVariantId 0)) 3).length = 2 ∧
      ((⟨Key.TUPLE_FIELD, 11, Ident.FieldIdent ⟨VariantId.EnumVariantId 0, 0⟩⟩ : Entry) ∈
        child_by_source wDb (Container.variant (VariantId.EnumVariantId 0)) 3 ↔
        ∃ i src, (wDb.variantChildSource (VariantId.EnumVariantId 0)).fields.get? i = some src ∧
          (⟨Key.TUPLE_FIELD, 11, Ident.FieldIdent ⟨VariantId.EnumVariantId 0, 0⟩⟩ : Entry) =
            fieldEntry (VariantId.EnumVariantId 0) (i, src)) := by
  have h := C5_field_slots wDb (VariantId.EnumVariantId 0) 3 4 (by decide)
  exact ⟨h.2.1, h.2.2 _⟩

/-- C6: a legacy textual-macro binding of a module's item scope is recorded
(under the declarative-macro category, keyed by its source node) when its
resolved target is a declarative-macro identifier located in the requested
file, and a binding contributes nothing when its target is any other macro
kind or lives in another file. -/
theorem C6_legacy_textual (db : DefDatabase) (s : ItemScope) (file_id : HirFileId)
    (hnd : ((scopeInserts db s file_id).map entryKey).Nodup) :
    (∀ p ∈ s.legacyMacros, ∀ id ∈ p.2, ∀ mid, id = MacroId.MacroRulesId mid →
        (db.lookup (Ident.MacroRulesId mid)).file_id = file_id →
          (⟨Key.MACRO_RULES, (db.lookup (Ident.MacroRulesId mid)).node,
            Ident.MacroRulesId mid⟩ : Entry) ∈
            child_by_source db (Container.scope s) file_id) ∧
      (∀ mid, (db.lookup (Ident.MacroRulesId mid)).file_id ≠ file_id →
        legacyIdInserts db file_id (MacroId.MacroRulesId mid) = []) ∧
      (∀ m2, legacyIdInserts db file_id (MacroId.Macro2Id m2) = []) ∧
      ∀ pm, legacyIdInserts db file_id (MacroId.ProcMacroId pm) = [] := by
  refine ⟨?_, ?_, fun m2 => rfl, fun pm => rfl⟩
  · intro p hp id hid mid hmid hfile
    subst hmid
    rw [cbs_eq]
    dsimp only [containerInserts]
    rw [mem_applyInserts_iff _ hnd]
    dsimp only [scopeInserts]
    simp only [List.append_assoc, List.mem_append]
    refine Or.inr (Or.inr (Or.inr (Or.inr (Or.inr (Or.inr (Or.inl ?_))))))
    refine List.mem_flatMap.mpr ⟨p, hp, List.mem_flatMap.mpr ⟨_, hid, ?_⟩⟩
    dsimp only [legacyIdInserts]
    rw [if_pos hfile]
    exact List.mem_singleton.mpr rfl
  · intro mid hne
    dsimp only [legacyIdInserts]
    rw [if_neg hne]

/-- C6 witness: the binding resolving to declarative macro 3 in file 0 is
recorded, and the sibling target of any other macro kind contributes
nothing. -/
theorem C6_legacy_textual_witness :
    (⟨Key.MACRO_RULES, 7, Ident.MacroRulesId 3⟩ : Entry) ∈
        child_by_source wDb (Container.scope wScope) 0 ∧
      legacyIdInserts wDb 0 (MacroId.Macro2Id 4) = [] := by
  have h := C6_legacy_textual wDb wScope 0 (by decide)
  exact ⟨h.1 (0, [MacroId.MacroRulesId 3, MacroId.Macro2Id 4]) (by decide)
    (MacroId.MacroRulesId 3) (by decide) 3 rfl rfl, h.2.2.1 4⟩

/-- C7: a sum-type container whose own defining file differs from the
requested file identity adds nothing: the Result Index is returned
unchanged. -/
theorem C7_enum_file_mismatch (db : DefDatabase) (en : Nat) (res : DynMap)
    (file_id : HirFileId) (h : file_id ≠ (db.lookup (Ident.EnumId en)).file_id) :
    child_by_source_to db (Container.enum en) res file_id = res := by
  dsimp only [child_by_source_to, EnumId.child_by_source_to]
  rw [if_pos h]

/-- C7 witness: requesting file 1 on an enum defined in file 0 leaves a
nonempty index untouched. -/
theorem C7_enum_file_mismatch_witness :
    child_by_source_to wDb (Container.enum 0)
        [⟨Key.FUNCTION, 7, Ident.FunctionId 5⟩] 1 =
      [⟨Key.FUNCTION, 7, Ident.FunctionId 5⟩] :=
  C7_enum_file_mismatch wDb 0 [⟨Key.FUNCTION, 7, Ident.FunctionId 5⟩] 1 (by decide)

/-- C8: in every Result Index returned by the protocol, no (key, node)
coordinate is bound twice — within each category's sub-map every concrete
syntax node maps to at most one identifier. -/
theorem C8_at_most_one_binding (db : DefDatabase) (c : Container) (file_id : HirFileId) :
    DynMap.Wf (child_by_source db c file_id) := by
  rw [cbs_eq]
  exact wf_applyInserts _ _ wf_nil

/-- C9, counterexample: the claim fails as stated.  File 1 owns none of the
variant's children (its field arena lives in file 0), yet the returned index
is not empty — the field policy ignores the requested file. -/
theorem C9_empty_counterexample :
    OwnsNone exDb (Container.variant (VariantId.EnumVariantId 0)) 1 ∧
      child_by_source exDb (Container.variant (VariantId.EnumVariantId 0)) 1 ≠ [] := by
  constructor
  · exact Or.inl (by decide)
  · decide

/-- C9 (amended): for every file-filtering container — all kinds except the
field policy and a variant's body — a requested file identity owning none of
the container's children yields the empty Result Index (and the traversal is
total, so no error is ever signalled). -/
theorem C9_empty_when_unowned (db : DefDatabase) (c : Container) (file_id : HirFileId)
    (hf : c.filtersByFile = true) (hn : OwnsNone db c file_id) :
    child_by_source db c file_id = [] := by
  rw [cbs_eq, containerInserts_eq_nil db c file_id hf hn]
  rfl

/-- C9 witness: file 1 owns none of the witness trait's children, and the
file-1 index is empty. -/
theorem C9_empty_when_unowned_witness :
    child_by_source wDb (Container.trait 0) 1 = [] :=
  C9_empty_when_unowned wDb (Container.trait 0) 1 rfl
    ⟨fun p hp => absurd hp (List.not_mem_nil p), by decide⟩

/-- C10: the index of a module container never contains an entry whose
identifier is a nested module, a sum-type variant, or a builtin type, even
when such declarations are present among the module's scope declarations. -/
theorem C10_skipped_declarations (db : DefDatabase) (m : Nat) (file_id : HirFileId)
    (e : Entry) (he : e ∈ child_by_source db (Container.module m) file_id) :
    ∀ n, e.id ≠ Ident.ModuleIdent n ∧ e.id ≠ Ident.EnumVariantId n ∧
      e.id ≠ Ident.BuiltinTypeIdent n := by
  intro n
  rw [cbs_eq] at he
  rcases mem_applyInserts _ _ _ he with h | h
  · dsimp only [containerInserts] at h
    rcases (scopeInserts_shape db (db.moduleScope m) file_id e h).2 with ⟨h1, h2, h3⟩
    exact ⟨h1 n, h2 n, h3 n⟩
  · cases h

/-- C10 witness: the module scope declares a nested module (9), a sum-type
variant (2) and a builtin type (4) alongside function 5; the emitted function
entry's identifier is none of the skipped kinds. -/
theorem C10_skipped_declarations_witness :
    Entry.id ⟨Key.FUNCTION, 7, Ident.FunctionId 5⟩ ≠ Ident.ModuleIdent 9 ∧
      Entry.id ⟨Key.FUNCTION, 7, Ident.FunctionId 5⟩ ≠ Ident.EnumVariantId 2 ∧
      Entry.id ⟨Key.FUNCTION, 7, Ident.FunctionId 5⟩ ≠ Ident.BuiltinTypeIdent 4 := by
  have h := C10_skipped_declarations wDb 0 0 ⟨Key.FUNCTION, 7, Ident.FunctionId 5⟩ (by decide)
  exact ⟨(h 9).1, (h 2).2.1, (h 4).2.2⟩

end HirDef
